import Mathlib

/-!
Shallow embedding of the M3U8 download core of this repository
(`m3u8-downloader`-style module: `PauseResumeController`, `applyURL`,
`parseM3U8`, `extractSubPlaylistUrl`, `arrayBufferToWordArray`, `aesDecrypt`,
`downloadM3U8Video` with its inner `flushPendingWrites`, `downloadSegment`
and `processQueue`), together with theorems settling the specification
claims about it.

Modelling conventions:
- JS `ArrayBuffer`s are `List Nat` of bytes; JS 32-bit words are `Nat`
  (all bitwise operators used by the source produce values `< 2 ^ 32`
  on byte inputs, so no wrap-around modelling is needed).
- JS `Map<number, V>` values are association lists `List (Nat × V)` with
  `Map.set` / `Map.get` / `Map.delete` / `Map.has` modelled below.
- JS numbers that carry durations are modelled as integers (`Int`):
  they are produced only by the `parseFloat` oracle and no claim touches
  them; on integer durations the bitrate product is exact and
  `Math.round` is the identity, so `totalSize` is a plain product.
- `async` functions are modelled as pure state-passing functions; a thrown
  exception is an `Except`/`Option` error value.  Suspension points
  (`await`) of a run that completes are invisible to the final state, so
  `waitIfPaused()` checkpoints are state-identities here; the
  pause-controller itself is modelled separately as a state machine.
- Network effects (`fetch`) are oracle functions supplied as parameters.
- The sink (`writer.write` / `StreamingTransmuxer.pushAndTransmux`) is an
  oracle `writeOk : Nat → Payload → Bool` saying whether the write of a
  given segment payload is accepted; delivered payloads are recorded with
  their segment index as ghost data so ordering theorems can speak about
  them.
-/

set_option autoImplicit false

deriving instance DecidableEq for Except

namespace MoonTV

/-- Bytes of a JS `ArrayBuffer` / `Uint8Array`. -/
abbrev Payload := List Nat

/-! ### JS `Map<number, α>` as an association list -/

/-- `Map.get(k)`: first entry with key `k`, if any. -/
def mapGet {α : Type} (m : List (Nat × α)) (k : Nat) : Option α :=
  (m.find? (fun p => p.1 == k)).map (·.2)

/-- `Map.delete(k)`: remove the entry with key `k`. -/
def mapDelete {α : Type} (m : List (Nat × α)) (k : Nat) : List (Nat × α) :=
  m.filter (fun p => p.1 != k)

/-- `Map.set(k, v)`: insert or overwrite the entry with key `k`. -/
def mapSet {α : Type} (m : List (Nat × α)) (k : Nat) (v : α) : List (Nat × α) :=
  (k, v) :: mapDelete m k

/-- `Map.has(k)`. -/
def mapHas {α : Type} (m : List (Nat × α)) (k : Nat) : Bool :=
  (mapGet m k).isSome

theorem mapGet_mapSet_self {α : Type} (m : List (Nat × α)) (k : Nat) (v : α) :
    mapGet (mapSet m k v) k = some v := by
  simp [mapGet, mapSet, List.find?]

theorem mapGet_mem {α : Type} {m : List (Nat × α)} {k : Nat} {v : α}
    (h : mapGet m k = some v) : (k, v) ∈ m := by
  unfold mapGet at h
  rcases hf : m.find? (fun p => p.1 == k) with _ | p
  · simp [hf] at h
  · have hmem := List.mem_of_find?_eq_some hf
    have hpred := List.find?_some hf
    simp [hf] at h
    have : p.1 = k := by simpa using hpred
    rcases p with ⟨k', v'⟩
    simp_all

theorem mapDelete_subset {α : Type} (m : List (Nat × α)) (k : Nat) :
    ∀ q ∈ mapDelete m k, q ∈ m := by
  intro q hq
  exact List.mem_of_mem_filter hq

theorem mapDelete_length_lt {α : Type} {m : List (Nat × α)} {k : Nat} {v : α}
    (h : mapGet m k = some v) : (mapDelete m k).length < m.length := by
  have hmem : (k, v) ∈ m := mapGet_mem h
  unfold mapDelete
  exact List.length_filter_lt_length_iff_exists.2 ⟨(k, v), hmem, by simp⟩

/-! ### `PauseResumeController`

The controller's fields are modelled directly: `isPaused : Bool`, the
presence of `resumeResolve` and of `pausePromise` as `Bool`s, and the
number of callers currently blocked inside `waitIfPaused()` on the pending
`pausePromise` as `waiters : Nat` (resolving the promise releases them
all, which the model records by resetting the count to zero). -/

structure PauseResumeController where
  isPaused : Bool
  hasResumeResolve : Bool
  hasPausePromise : Bool
  waiters : Nat
  deriving DecidableEq, Repr

namespace PauseResumeController

/-- The freshly constructed controller. -/
def init : PauseResumeController :=
  { isPaused := false, hasResumeResolve := false, hasPausePromise := false,
    waiters := 0 }

/-- `pause()`. -/
def pause (s : PauseResumeController) : PauseResumeController :=
  if s.isPaused then s
  else { s with isPaused := true, hasResumeResolve := true, hasPausePromise := true }

/-- `resume()`: resolving the pending promise releases every waiter. -/
def resume (s : PauseResumeController) : PauseResumeController :=
  if s.isPaused && s.hasResumeResolve then
    { s with isPaused := false, hasResumeResolve := false, hasPausePromise := false,
             waiters := 0 }
  else s

/-- `waitIfPaused()`: returns the new state and whether the caller suspends
(awaits the pending `pausePromise`). -/
def waitIfPaused (s : PauseResumeController) : PauseResumeController × Bool :=
  if s.isPaused && s.hasPausePromise then
    ({ s with waiters := s.waiters + 1 }, true)
  else (s, false)

/-- `destroy()`: force-unpause; if a resolver is pending, call it
(releasing every waiter) and clear it; drop the promise. -/
def destroy (s : PauseResumeController) : PauseResumeController :=
  { isPaused := false, hasResumeResolve := false, hasPausePromise := false,
    waiters := if s.hasResumeResolve then 0 else s.waiters }

/-- States reachable through the public methods: the resolver and the
promise exist exactly while paused, and callers only block while a promise
is pending. -/
def Inv (s : PauseResumeController) : Prop :=
  s.hasResumeResolve = s.isPaused ∧ s.hasPausePromise = s.isPaused ∧
    (0 < s.waiters → s.isPaused = true)

instance (s : PauseResumeController) : Decidable (Inv s) := by
  unfold Inv; infer_instance

end PauseResumeController

/-! ### JS string primitives

The JS string methods the module uses (`startsWith`, `split`, `join`,
`trim`, `substring(0, n)`, `toUpperCase`) are modelled over the character
lists of Lean strings, so that every definition evaluates by kernel
reduction. -/

/-- `s.startsWith(p)`. -/
def strStartsWith (s p : String) : Bool :=
  p.toList.isPrefixOf s.toList

/-- Splitting a character list on every occurrence of a non-empty
separator: `skip` counts separator characters still to be consumed after
a match, `acc` holds the reversed current piece. -/
def splitScan (sep : List Char) (skip : Nat) (acc : List Char) :
    List Char → List (List Char)
  | [] => [acc.reverse]
  | c :: cs =>
    if 0 < skip then splitScan sep (skip - 1) acc cs
    else if !sep.isEmpty && sep.isPrefixOf (c :: cs) then
      acc.reverse :: splitScan sep (sep.length - 1) [] cs
    else splitScan sep 0 (c :: acc) cs

/-- `s.split(sep)` for non-empty `sep`. -/
def strSplitOn (s sep : String) : List String :=
  (splitScan sep.toList 0 [] s.toList).map List.asString

/-- `arr.join(sep)`. -/
def joinSep (sep : List Char) : List (List Char) → List Char
  | [] => []
  | [x] => x
  | x :: xs => x ++ sep ++ joinSep sep xs

/-- `arr.join(sep)` on strings. -/
def strJoin (sep : String) (l : List String) : String :=
  (joinSep sep.toList (l.map String.toList)).asString

/-- `s.trim()`. -/
def strTrim (s : String) : String :=
  ((s.toList.dropWhile Char.isWhitespace).reverse.dropWhile
    Char.isWhitespace).reverse.asString

/-- `s.substring(0, n)`. -/
def strTake (s : String) (n : Nat) : String :=
  (s.toList.take n).asString

/-- `s.toUpperCase()` (ASCII, which covers the magic header). -/
def strToUpper (s : String) : String :=
  (s.toList.map Char.toUpper).asString

/-! ### `applyURL`

`new URL(baseURL)` is a platform primitive; it is modelled for the
`http(s)://host/...`-shaped URLs this module feeds it: `protocol` is the
part before `://` with `:` appended, `host` everything after `://` up to
the first `/`, `?` or `#`.  A `baseURL` without `://` makes `new URL`
throw, modelled as `none`; `applyURL` propagates that as `none` (it only
constructs `new URL(baseURL)` after the `/^http/` early return). -/

structure URLParts where
  protocol : String
  host : String
  deriving DecidableEq, Repr

/-- Model of `new URL(s)` restricted to scheme-and-authority URLs. -/
def parseURL (s : String) : Option URLParts :=
  match strSplitOn s "://" with
  | [] => none
  | [_] => none
  | scheme :: rest =>
    if scheme = "" then none
    else
      let after := strJoin "://" rest
      let host := (after.toList.takeWhile
        (fun c => c ≠ '/' && c ≠ '?' && c ≠ '#')).asString
      some { protocol := scheme ++ ":", host := host }

/-- `applyURL(targetURL, baseURL)`; `none` models the exception thrown by
`new URL` on an unparseable base. -/
def applyURL (targetURL baseURL : String) : Option String :=
  if strStartsWith targetURL "http" then
    some targetURL
  else
    match parseURL baseURL with
    | none => none
    | some u =>
      if strStartsWith targetURL "/" then
        some (u.protocol ++ "//" ++ u.host ++ targetURL)
      else
        some (strJoin "/" (strSplitOn baseURL "/").dropLast ++ "/" ++ targetURL)

/-- The spec's notion of an absolute URL: one that carries a scheme
separator.  (The code instead tests the prefix `http`.) -/
def isAbsoluteURLSpec (s : String) : Bool :=
  (strSplitOn s "://").length ≥ 2

/-! ### `arrayBufferToWordArray` and the byte extraction of `aesDecrypt`

The source packs bytes big-endian into 32-bit words with
`words[i >>> 2] |= (u8[i] & 0xff) << (24 - (i % 4) * 8)` and extracts with
`(words[i >>> 2] >>> (24 - (i % 4) * 8)) & 0xff`.  `packWords` performs
the same `|=` accumulation one word (four bytes) at a time. -/

/-- One packed word from at most four bytes (missing trailing bytes of the
final word stay zero, like the untouched bits of the JS word). -/
def packWord4 (b0 b1 b2 b3 : Nat) : Nat :=
  ((b0 &&& 0xff) <<< 24) ||| ((b1 &&& 0xff) <<< 16) |||
    ((b2 &&& 0xff) <<< 8) ||| ((b3 &&& 0xff) <<< 0)

/-- The `words` array built by `arrayBufferToWordArray`'s loop. -/
def packWords : List Nat → List Nat
  | [] => []
  | [b0] => [packWord4 b0 0 0 0]
  | [b0, b1] => [packWord4 b0 b1 0 0]
  | [b0, b1, b2] => [packWord4 b0 b1 b2 0]
  | b0 :: b1 :: b2 :: b3 :: rest => packWord4 b0 b1 b2 b3 :: packWords rest

/-- A CryptoJS `WordArray`: 32-bit `words` plus a significant-byte count. -/
structure WordArrayK where
  words : List Nat
  sigBytes : Nat
  deriving DecidableEq, Repr

/-- `arrayBufferToWordArray(arrayBuffer)`. -/
def arrayBufferToWordArray (bytes : List Nat) : WordArrayK :=
  { words := packWords bytes, sigBytes := bytes.length }

/-- Byte `i` as read back by `aesDecrypt`'s extraction loop:
`(words[i >>> 2] >>> (24 - (i % 4) * 8)) & 0xff`. -/
def extractByte (words : List Nat) (i : Nat) : Nat :=
  ((words.getD (i / 4) 0) >>> (24 - (i % 4) * 8)) &&& 0xff

/-- The `Uint8Array` built by `aesDecrypt`'s final loop from a
`WordArray`. -/
def wordArrayToBytes (words : List Nat) (sigBytes : Nat) : List Nat :=
  (List.range sigBytes).map (extractByte words)

/-- `aesDecrypt(data, key, iv)`.  `key` is `''` (no key, modelled `none`)
or a fetched key `WordArray`; `cryptoAES` is the CryptoJS
`AES.decrypt(..., CBC, Pkcs7)` primitive, an oracle taking the ciphertext
word array, the key and the IV string and returning the plaintext word
array. -/
def aesDecrypt (cryptoAES : WordArrayK → WordArrayK → String → WordArrayK)
    (data : List Nat) (key : Option WordArrayK) (iv : String) : List Nat :=
  match key with
  | none => data
  | some k =>
    let wordArray := arrayBufferToWordArray data
    let decrypted := cryptoAES wordArray k iv
    wordArrayToBytes decrypted.words decrypted.sigBytes

/-! ### Playlist resolver: `parseM3U8`, `isMasterPlaylist`,
`extractSubPlaylistUrl`

Regular-expression scans of the source are modelled by explicit left-to-
right scanners over character lists; `String.prototype.includes` by
`stringIncludes`. -/

/-- Whether a character list starts with `pat` immediately followed by a
character satisfying `keep` (the `+` of the capture groups). -/
def headSat (keep : Char → Bool) : List Char → Bool
  | [] => false
  | d :: _ => keep d

/-- First match of the regex `pat(keep+)`: scan left to right, return the
greedy capture after the first position where `pat` is followed by at
least one `keep`-character. -/
def findCapture (pat : List Char) (keep : Char → Bool) : List Char → Option (List Char)
  | [] => none
  | c :: cs =>
    if pat.isPrefixOf (c :: cs) && headSat keep ((c :: cs).drop pat.length) then
      some (((c :: cs).drop pat.length).takeWhile keep)
    else findCapture pat keep cs

/-- `str.includes(pat)` for non-empty `pat`. -/
def containsSub (pat : List Char) : List Char → Bool
  | [] => pat.isEmpty
  | c :: cs => pat.isPrefixOf (c :: cs) || containsSub pat cs

/-- `s.includes(pat)`. -/
def stringIncludes (s pat : String) : Bool :=
  containsSub pat.toList s.toList

/-- `parseInt` on a non-empty run of decimal digits. -/
def natOfDigits (ds : List Char) : Nat :=
  ds.foldl (fun acc c => 10 * acc + (c.toNat - '0'.toNat)) 0

/-- The `BANDWIDTH=(\d+)` capture of a variant line. -/
def bandwidthOf (line : String) : Option Nat :=
  (findCapture "BANDWIDTH=".toList Char.isDigit line.toList).map natOfDigits

/-- `isMasterPlaylist(m3u8Content)`. -/
def isMasterPlaylist (m3u8Content : String) : Bool :=
  stringIncludes m3u8Content "#EXT-X-STREAM-INF"

/-- One entry of the `playlists` array collected by
`extractSubPlaylistUrl` (its `resolution` capture is stored by the source
but never used, so it is not modelled). -/
structure StreamVariant where
  url : String
  bandwidth : Option Nat
  deriving DecidableEq, Repr

/-- `b.bandwidth || 0` — the rank used by the sort comparator. -/
def bwD (p : StreamVariant) : Nat :=
  p.bandwidth.getD 0

/-- Resolver-level errors.  `urlParseFailure` models the `TypeError`
thrown by `new URL` on an unparseable base URL. -/
inductive M3U8Err
  | invalidPlaylist
  | noVariant
  | recursionDepth
  | urlParseFailure
  deriving DecidableEq, Repr

/-- The collection loop of `extractSubPlaylistUrl`: for every line that
(trimmed) starts with `#EXT-X-STREAM-INF` and whose following line is
non-blank and not a tag, push the resolved URL and the bandwidth
capture.  The loop index advances by one each iteration. -/
def collectVariants (baseUrl : String) : List String → Except M3U8Err (List StreamVariant)
  | [] => .ok []
  | [_] => .ok []
  | l :: l2 :: rest =>
    if strStartsWith (strTrim l) "#EXT-X-STREAM-INF" then
      let nextLine := strTrim l2
      if nextLine ≠ "" && !(strStartsWith nextLine "#") then
        match applyURL nextLine baseUrl with
        | none => .error .urlParseFailure
        | some u =>
          (collectVariants baseUrl (l2 :: rest)).map
            (fun ps => { url := u, bandwidth := bandwidthOf (strTrim l) } :: ps)
      else collectVariants baseUrl (l2 :: rest)
    else collectVariants baseUrl (l2 :: rest)

/-- Stable insertion of `x` in front of the first kept element of lower or
equal bandwidth — the JS stable `sort((a, b) => (b.bandwidth || 0) -
(a.bandwidth || 0))` keeps earlier elements first on ties, which this
insertion reproduces. -/
def insertByBandwidth (x : StreamVariant) : List StreamVariant → List StreamVariant
  | [] => [x]
  | y :: ys => if bwD y ≤ bwD x then x :: y :: ys else y :: insertByBandwidth x ys

/-- `playlists.sort((a, b) => (b.bandwidth || 0) - (a.bandwidth || 0))`. -/
def sortByBandwidthDesc : List StreamVariant → List StreamVariant
  | [] => []
  | x :: xs => insertByBandwidth x (sortByBandwidthDesc xs)

/-- `extractSubPlaylistUrl(m3u8Content, baseUrl)`: `ok none` models the
`null` return (no candidate), otherwise the URL of the first variant
after the descending-bandwidth sort. -/
def extractSubPlaylistUrl (m3u8Content baseUrl : String) :
    Except M3U8Err (Option String) :=
  (collectVariants baseUrl (strSplitOn m3u8Content "\n")).map fun playlists =>
    match sortByBandwidthDesc playlists with
    | [] => none
    | p :: _ => some p.url

/-! ### The `M3U8Task` data model -/

/-- `task.type`. -/
inductive MediaKind
  | ts
  | mp4
  deriving DecidableEq, Repr

/-- `''`, `'downloading'`, `'success'`, `'error'`. -/
inductive SegStatus
  | blank
  | downloading
  | success
  | error
  deriving DecidableEq, Repr

/-- One entry of `task.finishList`. -/
structure FinishEntry where
  title : String
  status : SegStatus
  retryCount : Option Nat
  deriving DecidableEq, Repr

instance : Inhabited FinishEntry := ⟨⟨"", .blank, none⟩⟩

/-- `task.aesConf`; `key` is `''` (`none`) until a key is fetched. -/
structure AesConf where
  method : String
  uri : String
  iv : String
  key : Option WordArrayK
  deriving DecidableEq, Repr

/-- `task.rangeDownload` (1-based, inclusive). -/
structure RangeDownload where
  startSegment : Nat
  endSegment : Nat
  targetSegment : Nat
  deriving DecidableEq, Repr

/-- The `M3U8Task` descriptor.  Durations are exact rationals; a missing
`downloadedSegments` map and an empty one are both `[]`. -/
structure M3U8Task where
  url : String
  title : String
  type : MediaKind
  tsUrlList : List String
  finishList : List FinishEntry
  downloadIndex : Nat
  finishNum : Nat
  errorNum : Nat
  aesConf : AesConf
  durationSecond : Int
  segmentDurations : List Int
  rangeDownload : RangeDownload
  totalSize : Int
  downloadedSegments : List (Nat × Payload)
  deriving DecidableEq, Repr

/-- External primitives used by the resolver: the text fetch, the AES-key
fetch, `parseFloat`, and `extractTitleFromUrl` (which reads the system
clock, hence an oracle). -/
structure NetEnv where
  fetchText : String → String
  fetchKey : String → List Nat
  parseFloat : String → Int
  extractTitle : String → String

/-- Accumulator of the media-manifest line walk. -/
structure MediaScan where
  tsUrlList : List String
  finishList : List FinishEntry
  segmentDurations : List Int
  durationSecond : Int
  deriving DecidableEq, Repr

/-- The line walk of `parseM3U8`'s media branch: an `#EXTINF:` line parses
a pending duration and accumulates the total; a non-blank line not
starting with `#` is a segment URI consuming the pending duration. -/
def walkLines (env : NetEnv) (baseUrl : String) (lastDuration : Option Int) :
    List String → Except M3U8Err MediaScan
  | [] => .ok { tsUrlList := [], finishList := [], segmentDurations := [], durationSecond := 0 }
  | line :: rest =>
    if strStartsWith line "#EXTINF:" then
      let d := env.parseFloat ((strSplitOn line "#EXTINF:").getD 1 "")
      (walkLines env baseUrl (some d) rest).map
        (fun m => { m with durationSecond := m.durationSecond + d })
    else if line ≠ "" && !(strStartsWith line "#") && strTrim line ≠ "" then
      match applyURL (strTrim line) baseUrl with
      | none => .error .urlParseFailure
      | some tsUrl =>
        (walkLines env baseUrl none rest).map
          (fun m => { m with
            tsUrlList := tsUrl :: m.tsUrlList,
            finishList := { title := strTrim line, status := .blank, retryCount := none } :: m.finishList,
            segmentDurations := lastDuration.getD 0 :: m.segmentDurations })
    else walkLines env baseUrl lastDuration rest

/-- The `#EXT-X-KEY` detection: captures of `METHOD=([^,\s]+)`,
`URI="([^"]+)"`, `IV=([^,\s]+)`; the key is fetched once when a URI is
present and cached on the task as a `WordArray`. -/
def aesKeyConf (env : NetEnv) (m3u8Str url : String) : Except M3U8Err AesConf :=
  if stringIncludes m3u8Str "#EXT-X-KEY" then
    let method := ((findCapture "METHOD=".toList (fun c => c ≠ ',' && !c.isWhitespace)
      m3u8Str.toList).map List.asString).getD ""
    let ivStr := ((findCapture "IV=".toList (fun c => c ≠ ',' && !c.isWhitespace)
      m3u8Str.toList).map List.asString).getD ""
    match findCapture "URI=\"".toList (fun c => c ≠ '"') m3u8Str.toList with
    | none => .ok { method := method, uri := "", iv := ivStr, key := none }
    | some uriCapture =>
      match applyURL uriCapture.asString url with
      | none => .error .urlParseFailure
      | some uri =>
        if uri ≠ "" then
          .ok { method := method, uri := uri, iv := ivStr,
                key := some (arrayBufferToWordArray (env.fetchKey uri)) }
        else .ok { method := method, uri := uri, iv := ivStr, key := none }
  else .ok { method := "", uri := "", iv := "", key := none }

/-- `parseM3U8(url, depth)`: depth guard at 5, magic-header check, master
resolution by maximal declared bandwidth, media-manifest task
construction. -/
def parseM3U8 (env : NetEnv) (url : String) (depth : Nat) : Except M3U8Err M3U8Task :=
  if _h : depth > 5 then .error .recursionDepth
  else
    let m3u8Str := env.fetchText url
    if strToUpper (strTake m3u8Str 7) ≠ "#EXTM3U" then .error .invalidPlaylist
    else if isMasterPlaylist m3u8Str then
      match extractSubPlaylistUrl m3u8Str url with
      | .error e => .error e
      | .ok none => .error .noVariant
      | .ok (some subPlaylistUrl) => parseM3U8 env subPlaylistUrl (depth + 1)
    else
      match walkLines env url none (strSplitOn m3u8Str "\n") with
      | .error e => .error e
      | .ok scan =>
        match aesKeyConf env m3u8Str url with
        | .error e => .error e
        | .ok conf =>
          .ok { url := url
                title := env.extractTitle url
                type := .ts
                tsUrlList := scan.tsUrlList
                finishList := scan.finishList
                downloadIndex := 0
                finishNum := 0
                errorNum := 0
                aesConf := conf
                durationSecond := scan.durationSecond
                segmentDurations := scan.segmentDurations
                rangeDownload :=
                  { startSegment := 1, endSegment := scan.tsUrlList.length,
                    targetSegment := scan.tsUrlList.length }
                totalSize := scan.durationSecond * (2 * 1024 * 1024 / 8 : Int)
                downloadedSegments := [] }
termination_by 6 - depth
decreasing_by simp_wf; omega

/-! ### The ordered-write sequencer: `pendingWrites` / `flushPendingWrites`

One serialized flush pass (`writeLock` makes passes atomic).  On a failed
sink write the pass stops with the failing entry still pending and
`nextWriteIndex` unadvanced, as in the source where the `throw` happens
before the `delete`/increment. -/

/-- A `pendingWrites` map value: a downloaded payload or the `'failed'`
marker. -/
inductive PWEntry
  | data (d : Payload)
  | failed
  deriving DecidableEq, Repr

/-- Errors a run can surface.  `cancelled` is `'下载已取消'`,
`writeFailure` is the `'写入失败: ...'` wrapper recognised by
`downloadSegment`'s catch, `fetchFailure` any segment-fetch rejection,
`noSegments` the `'没有成功下载的片段'` throw of the buffered
finalization. -/
inductive RunErr
  | cancelled
  | writeFailure
  | fetchFailure
  | noSegments
  deriving DecidableEq, Repr

/-- Outcome of one flush pass: payloads written to the sink (with their
ghost index), the remaining map, the new `nextWriteIndex`, and the error
that aborted the pass, if any. -/
structure FlushResult where
  writes : List (Nat × Payload)
  pending : List (Nat × PWEntry)
  next : Nat
  err : Option RunErr
  deriving DecidableEq, Repr

/-- The `while (pendingWrites.has(nextWriteIndex))` loop of
`flushPendingWrites`: a failure marker is deleted and skipped; a payload
is written to the sink, deleted, and the cursor advanced; a rejected
write or an observed abort signal stops the pass with an error. -/
def flushLoop (writeOk : Nat → Payload → Bool) (aborted : Bool)
    (pw : List (Nat × PWEntry)) (n : Nat) : FlushResult :=
  match h : mapGet pw n with
  | none => { writes := [], pending := pw, next := n, err := none }
  | some e =>
    if aborted then { writes := [], pending := pw, next := n, err := some .cancelled }
    else
      match e with
      | .failed => flushLoop writeOk aborted (mapDelete pw n) (n + 1)
      | .data d =>
        if writeOk n d then
          let r := flushLoop writeOk aborted (mapDelete pw n) (n + 1)
          { r with writes := (n, d) :: r.writes }
        else { writes := [], pending := pw, next := n, err := some .writeFailure }
termination_by pw.length
decreasing_by all_goals exact mapDelete_length_lt h

/-- An observable event of the sequencer: a worker completing (inserting
its payload or failure marker into `pendingWrites`) or a serialized flush
pass running.  Worker completion order is arbitrary, so runs are
quantified over all event lists. -/
inductive SeqEvent
  | insert (i : Nat) (e : PWEntry)
  | flush
  deriving DecidableEq, Repr

/-- Sequencer state: the reorder buffer, the cursor, the ghost-indexed
sink contents, and whether the write chain has been poisoned by an
error. -/
structure SeqState where
  pendingWrites : List (Nat × PWEntry)
  nextWriteIndex : Nat
  sink : List (Nat × Payload)
  halted : Bool
  deriving DecidableEq, Repr

/-- Initial sequencer state of a run whose range starts at 1-based
`startSegment`: `nextWriteIndex = startSegment - 1`. -/
def seqInit (startIndex : Nat) : SeqState :=
  { pendingWrites := [], nextWriteIndex := startIndex, sink := [], halted := false }

/-- One event.  After the chain is poisoned further flush passes rethrow
immediately and write nothing; inserts still mutate the map. -/
def seqStep (writeOk : Nat → Payload → Bool) (s : SeqState) : SeqEvent → SeqState
  | .insert i e => { s with pendingWrites := mapSet s.pendingWrites i e }
  | .flush =>
    if s.halted then s
    else
      let r := flushLoop writeOk false s.pendingWrites s.nextWriteIndex
      { pendingWrites := r.pending, nextWriteIndex := r.next,
        sink := s.sink ++ r.writes, halted := r.err.isSome }

/-- A whole sequencer run over an arbitrary event interleaving. -/
def runSeq (writeOk : Nat → Payload → Bool) (startIndex : Nat)
    (events : List SeqEvent) : SeqState :=
  events.foldl (seqStep writeOk) (seqInit startIndex)

/-! ### The download run: `downloadM3U8Video`, `downloadSegment`,
`processQueue` -/

/-- `DownloadProgress.status`. -/
inductive ProgressPhase
  | downloading
  | processing
  | done
  | error
  deriving DecidableEq, Repr

/-- The progress message templates of the source, with their interpolated
numbers (indices 1-based as displayed). -/
inductive PMsg
  | downloadingSegs (completed total threads : Nat) (retrySuccess : Bool)
  | segRetrying (displayIndex attempt maxRetries : Nat)
  | segSkipped (displayIndex completed total : Nat)
  | segFailedAwaitRetry (displayIndex completed total : Nat)
  | failedSegsAwaitRetry (failedCount : Nat)
  | mergingOrTranscoding (kind : MediaKind)
  | allDone
  deriving DecidableEq, Repr

/-- One `onProgress` payload. -/
structure DownloadProgress where
  current : Nat
  total : Nat
  percentage : Nat
  status : ProgressPhase
  message : Option PMsg
  deriving DecidableEq, Repr

/-- `Math.floor((current / total) * 100)`. -/
def jsFloorPct (current total : Nat) : Nat :=
  current * 100 / total

/-- `Math.round((current / total) * 100)`. -/
def jsRoundPct (current total : Nat) : Nat :=
  (200 * current + total) / (2 * total)

/-- Oracles and options of one `downloadM3U8Video` call.
`fetchResult i r` is the outcome of `downloadTsSegment` for segment `i`
on attempt `r`; `writeOk` whether the sink accepts a payload;
`hasWriter` whether stream mode is on and the writer was created
(`streamMode !== 'disabled' && writer` — the only combination the
branches test); `aborted` the (constant) cancellation signal. -/
structure RunEnv where
  fetchResult : Nat → Nat → Except Unit Payload
  cryptoAES : WordArrayK → WordArrayK → String → WordArrayK
  writeOk : Nat → Payload → Bool
  maxRetries : Nat
  concurrency : Nat
  hasWriter : Bool
  aborted : Bool

/-- The default `maxRetries` parameter of `downloadM3U8Video`. -/
def defaultMaxRetries : Nat := 3

/-- The default `concurrency` parameter of `downloadM3U8Video`. -/
def defaultConcurrency : Nat := 6

/-- The mutable state of one run: the task fields the run mutates, the
session bookkeeping (`pendingWrites`, `nextWriteIndex`, `completedCount`),
and ghost observation logs (sink contents with indices, fetch attempts,
retry delays in ms, emitted progress events, writer lifecycle, delivered
artifact). -/
structure RunState where
  finishList : List FinishEntry
  finishNum : Nat
  errorNum : Nat
  downloadedSegments : List (Nat × Payload)
  pendingWrites : List (Nat × PWEntry)
  nextWriteIndex : Nat
  completedCount : Nat
  sink : List (Nat × Payload)
  fetchLog : List (Nat × Nat)
  delays : List Nat
  progressLog : List DownloadProgress
  writerClosed : Bool
  writerAborted : Bool
  artifact : Option (List Payload)
  deriving DecidableEq, Repr

/-- `task.finishList[i].field = v` as a functional update. -/
def updateFinish (l : List FinishEntry) (i : Nat) (f : FinishEntry → FinishEntry) :
    List FinishEntry :=
  l.set i (f (l.getD i default))

/-- Append one `onProgress` event. -/
def emit (st : RunState) (p : DownloadProgress) : RunState :=
  { st with progressLog := st.progressLog ++ [p] }

/-- `flushPendingWrites()`: a no-op without a writer, otherwise one
serialized flush pass over the current map and cursor. -/
def flushPendingWritesM (env : RunEnv) (st : RunState) : RunState × Option RunErr :=
  if !env.hasWriter then (st, none)
  else
    let r := flushLoop env.writeOk env.aborted st.pendingWrites st.nextWriteIndex
    ({ st with pendingWrites := r.pending, nextWriteIndex := r.next,
               sink := st.sink ++ r.writes }, r.err)

/-- Tail of `downloadSegment`'s try block after the payload has been
handed to the active output path: final pause/abort checkpoint, mark
success, bump counters, report progress. -/
def successTail (env : RunEnv) (totalSegments : Nat) (st : RunState)
    (index retryCount : Nat) : RunState × Option RunErr :=
  if env.aborted then (st, some .cancelled)
  else
    let st := { st with
      finishList := updateFinish st.finishList index (fun en => { en with status := .success }) }
    let completed := st.completedCount + 1
    let st := { st with completedCount := completed, finishNum := st.finishNum + 1 }
    (emit st { current := completed, total := totalSegments,
               percentage := jsFloorPct completed totalSegments,
               status := .downloading,
               message := some (.downloadingSegs completed totalSegments env.concurrency
                 (decide (0 < retryCount))) }, none)

/-- The try block of `downloadSegment`: checkpoints, fetch, decrypt if a
key is cached, hand the payload to the sequencer (stream mode) or the
task's payload map (buffered mode), then `successTail`. -/
def tryDownloadBody (env : RunEnv) (task : M3U8Task) (totalSegments : Nat)
    (st : RunState) (index retryCount : Nat) : RunState × Option RunErr :=
  if env.aborted then (st, some .cancelled)
  else
    let st := { st with fetchLog := st.fetchLog ++ [(index, retryCount)] }
    match env.fetchResult index retryCount with
    | .error _ => (st, some .fetchFailure)
    | .ok raw =>
      if env.aborted then (st, some .cancelled)
      else
        let segmentData :=
          match task.aesConf.key with
          | none => raw
          | some _ => aesDecrypt env.cryptoAES raw task.aesConf.key task.aesConf.iv
        if env.aborted then (st, some .cancelled)
        else if env.hasWriter then
          let st := { st with pendingWrites := mapSet st.pendingWrites index (.data segmentData) }
          match flushPendingWritesM env st with
          | (st', some e) => (st', some e)
          | (st', none) => successTail env totalSegments st' index retryCount
        else
          let st := { st with downloadedSegments := mapSet st.downloadedSegments index segmentData }
          successTail env totalSegments st index retryCount

/-- Tail of `downloadSegment`'s catch once the retry budget is spent:
count the error, mark the segment failed, and in stream mode flush a
failure marker so the stream skips it. -/
def segmentFailureTail (env : RunEnv) (totalSegments : Nat) (st : RunState)
    (index retryCount : Nat) : RunState × Option RunErr :=
  let st := { st with
    errorNum := st.errorNum + 1,
    finishList := updateFinish st.finishList index
      (fun en => { en with status := .error, retryCount := some retryCount }) }
  if env.hasWriter then
    let st := { st with pendingWrites := mapSet st.pendingWrites index .failed }
    match flushPendingWritesM env st with
    | (st', some e2) => (st', some e2)
    | (st', none) =>
      (emit st'
        { current := st'.completedCount, total := totalSegments,
          percentage := jsFloorPct st'.completedCount totalSegments,
          status := .downloading,
          message := some (.segSkipped (index + 1) st'.completedCount totalSegments) },
        none)
  else
    (emit st
      { current := st.completedCount, total := totalSegments,
        percentage := jsFloorPct st.completedCount totalSegments,
        status := .downloading,
        message := some (.segFailedAwaitRetry (index + 1) st.completedCount totalSegments) },
      none)

/-- `downloadSegment(index, retryCount)`: try block plus the catch that
re-throws write failures, retries any other failure after a fixed 1000 ms
delay while budget remains, and otherwise records the segment as failed
(with a failure marker flushed into the stream in stream mode). -/
def downloadSegment (env : RunEnv) (task : M3U8Task) (totalSegments : Nat)
    (st : RunState) (index : Nat) (retryCount : Nat) : RunState × Option RunErr :=
  if env.aborted then (st, some .cancelled)
  else
    let st := { st with
      finishList := updateFinish st.finishList index
        (fun en => { en with status := .downloading, retryCount := some retryCount }) }
    match tryDownloadBody env task totalSegments st index retryCount with
    | (st', none) => (st', none)
    | (st', some e) =>
      if e = .writeFailure then (st', some e)
      else if _h : retryCount < env.maxRetries then
        let st' := emit st'
          { current := st'.completedCount, total := totalSegments,
            percentage := jsFloorPct st'.completedCount totalSegments,
            status := .downloading,
            message := some (.segRetrying (index + 1) (retryCount + 1) env.maxRetries) }
        let st' := { st' with delays := st'.delays ++ [1000] }
        downloadSegment env task totalSegments st' index (retryCount + 1)
      else
        segmentFailureTail env totalSegments st' index retryCount
termination_by env.maxRetries + 1 - retryCount
decreasing_by simp_wf; omega

/-- One worker's `processQueue` loop, sequentialized: pop the next index,
run `downloadSegment`, propagate any thrown error. -/
def processQueue (env : RunEnv) (task : M3U8Task) (totalSegments : Nat)
    (st : RunState) : List Nat → RunState × Option RunErr
  | [] => (st, none)
  | i :: rest =>
    if env.aborted then (st, some .cancelled)
    else
      match downloadSegment env task totalSegments st i 0 with
      | (st', none) => processQueue env task totalSegments st' rest
      | (st', some e) => (st', some e)

/-- `totalSegments = endSegment - startSegment + 1` (ranges satisfy
`1 ≤ startSegment ≤ endSegment`). -/
def totalSegmentsOf (task : M3U8Task) : Nat :=
  task.rangeDownload.endSegment - task.rangeDownload.startSegment + 1

/-- The download queue `[startSegment - 1, ..., endSegment - 1]`. -/
def queueOf (task : M3U8Task) : List Nat :=
  List.range' (task.rangeDownload.startSegment - 1)
    (task.rangeDownload.endSegment - (task.rangeDownload.startSegment - 1))

/-- Session state at the start of a run. -/
def initState (task : M3U8Task) : RunState :=
  { finishList := task.finishList, finishNum := task.finishNum,
    errorNum := task.errorNum, downloadedSegments := task.downloadedSegments,
    pendingWrites := [], nextWriteIndex := task.rangeDownload.startSegment - 1,
    completedCount := 0, sink := [], fetchLog := [], delays := [],
    progressLog := [], writerClosed := false, writerAborted := false,
    artifact := none }

/-- The `await Promise.all(workers)` phase as the sequential draining of
the shared queue. -/
def workerPhase (env : RunEnv) (task : M3U8Task) : RunState × Option RunErr :=
  processQueue env task (totalSegmentsOf task) (initState task) (queueOf task)

/-- `task.finishList.slice(startSegment - 1, endSegment)`. -/
def inRangeFinish (task : M3U8Task) (fl : List FinishEntry) : List FinishEntry :=
  (fl.drop (task.rangeDownload.startSegment - 1)).take
    (task.rangeDownload.endSegment - (task.rangeDownload.startSegment - 1))

/-- `downloadM3U8Video`: worker phase, then — stream mode — final flush,
close and `done`, aborting the writer if anything was thrown; or —
buffered mode — the no-payload throw, the failed-segments wait, or merge
(the `Blob`/transcoder collaborators are recorded as the ordered list of
in-range payloads handed to them) and `triggerDownload` plus `done`. -/
def downloadM3U8Video (env : RunEnv) (task : M3U8Task) : RunState × Option RunErr :=
  let totalSegments := totalSegmentsOf task
  match workerPhase env task with
  | (st, some e) =>
    if env.hasWriter then ({ st with writerAborted := true }, some e) else (st, some e)
  | (st, none) =>
    if env.hasWriter then
      match flushPendingWritesM env st with
      | (st', some e) => ({ st' with writerAborted := true }, some e)
      | (st', none) =>
        let st' := { st' with writerClosed := true }
        (emit st' { current := st'.completedCount, total := totalSegments, percentage := 100,
                    status := .done, message := some .allDone }, none)
    else
      if st.downloadedSegments.isEmpty then (st, some .noSegments)
      else
        let inRange := inRangeFinish task st.finishList
        if inRange.any (fun en => en.status == .error) then
          let failedCount := (inRange.filter (fun en => en.status == .error)).length
          (emit st { current := st.completedCount, total := totalSegments,
                     percentage := jsRoundPct st.completedCount totalSegments,
                     status := .downloading,
                     message := some (.failedSegsAwaitRetry failedCount) }, none)
        else
          let segments := (queueOf task).filterMap (fun i => mapGet st.downloadedSegments i)
          let st := emit st { current := segments.length, total := totalSegments,
                              percentage := 100, status := .processing,
                              message := some (.mergingOrTranscoding task.type) }
          let st := { st with artifact := some segments }
          (emit st { current := segments.length, total := totalSegments, percentage := 100,
                     status := .done, message := some .allDone }, none)

/-! ### Facts about the byte/word packing -/

theorem and255_eq_mod (x : Nat) : x &&& 255 = x % 256 := by
  have h := Nat.and_pow_two_sub_one_eq_mod x 8
  norm_num at h
  exact h

theorem packWord4_eq {a b c d : Nat} (ha : a < 256) (hb : b < 256) (hc : c < 256)
    (hd : d < 256) : packWord4 a b c d = ((a * 256 + b) * 256 + c) * 256 + d := by
  have ea : a &&& 255 = a := by rw [and255_eq_mod, Nat.mod_eq_of_lt ha]
  have eb : b &&& 255 = b := by rw [and255_eq_mod, Nat.mod_eq_of_lt hb]
  have ec : c &&& 255 = c := by rw [and255_eq_mod, Nat.mod_eq_of_lt hc]
  have ed : d &&& 255 = d := by rw [and255_eq_mod, Nat.mod_eq_of_lt hd]
  show (a &&& 255) <<< 24 ||| (b &&& 255) <<< 16 ||| (c &&& 255) <<< 8 |||
      (d &&& 255) <<< 0 = _
  rw [ea, eb, ec, ed]
  rw [Nat.shiftLeft_eq, Nat.shiftLeft_eq, Nat.shiftLeft_eq, Nat.shiftLeft_eq]
  have h1 : a * 2 ^ 24 ||| b * 2 ^ 16 = a * 2 ^ 24 + b * 2 ^ 16 := by
    have hlt : b * 2 ^ 16 < 2 ^ 24 := by
      norm_num
      omega
    have h := Nat.mul_add_lt_is_or hlt a
    rw [Nat.mul_comm] at h
    exact h.symm
  have h2 : a * 2 ^ 24 + b * 2 ^ 16 ||| c * 2 ^ 8 =
      a * 2 ^ 24 + b * 2 ^ 16 + c * 2 ^ 8 := by
    have hlt : c * 2 ^ 8 < 2 ^ 16 := by
      norm_num
      omega
    have h := Nat.mul_add_lt_is_or hlt (a * 2 ^ 8 + b)
    have e : 2 ^ 16 * (a * 2 ^ 8 + b) = a * 2 ^ 24 + b * 2 ^ 16 := by ring
    rw [e] at h
    exact h.symm
  have h3 : a * 2 ^ 24 + b * 2 ^ 16 + c * 2 ^ 8 ||| d * 2 ^ 0 =
      a * 2 ^ 24 + b * 2 ^ 16 + c * 2 ^ 8 + d * 2 ^ 0 := by
    have hlt : d * 2 ^ 0 < 2 ^ 8 := by omega
    have h := Nat.mul_add_lt_is_or hlt (a * 2 ^ 16 + b * 2 ^ 8 + c)
    have e : 2 ^ 8 * (a * 2 ^ 16 + b * 2 ^ 8 + c) = a * 2 ^ 24 + b * 2 ^ 16 + c * 2 ^ 8 := by
      ring
    rw [e] at h
    have e2 : d * 2 ^ 0 = d := by norm_num
    rw [e2] at h ⊢
    exact h.symm
  rw [h1, h2, h3]
  ring

theorem packWord4_extract {a b c d : Nat} (ha : a < 256) (hb : b < 256) (hc : c < 256)
    (hd : d < 256) :
    (packWord4 a b c d >>> 24) &&& 255 = a ∧ (packWord4 a b c d >>> 16) &&& 255 = b ∧
    (packWord4 a b c d >>> 8) &&& 255 = c ∧ (packWord4 a b c d >>> 0) &&& 255 = d := by
  rw [packWord4_eq ha hb hc hd]
  simp only [Nat.shiftRight_eq_div_pow, and255_eq_mod]
  refine ⟨?_, ?_, ?_, ?_⟩ <;> · norm_num; omega

theorem extractByte_packWords :
    ∀ bytes : List Nat, (∀ b ∈ bytes, b < 256) →
      ∀ i, i < bytes.length → extractByte (packWords bytes) i = bytes.getD i 0 := by
  intro bytes
  induction bytes using packWords.induct with
  | case1 =>
    intro _ i hi
    simp at hi
  | case2 b0 =>
    intro h i hi
    have hb0 : b0 < 256 := h b0 (by simp)
    have hi0 : i = 0 := by simpa using hi
    subst hi0
    have hx := (@packWord4_extract b0 0 0 0 hb0 (by norm_num) (by norm_num) (by norm_num)).1
    simpa [packWords, extractByte] using hx
  | case3 b0 b1 =>
    intro h i hi
    have hb0 : b0 < 256 := h b0 (by simp)
    have hb1 : b1 < 256 := h b1 (by simp)
    have hx := @packWord4_extract b0 b1 0 0 hb0 hb1 (by norm_num) (by norm_num)
    simp at hi
    interval_cases i
    · simpa [packWords, extractByte] using hx.1
    · simpa [packWords, extractByte] using hx.2.1
  | case4 b0 b1 b2 =>
    intro h i hi
    have hb0 : b0 < 256 := h b0 (by simp)
    have hb1 : b1 < 256 := h b1 (by simp)
    have hb2 : b2 < 256 := h b2 (by simp)
    have hx := @packWord4_extract b0 b1 b2 0 hb0 hb1 hb2 (by norm_num)
    simp at hi
    interval_cases i
    · simpa [packWords, extractByte] using hx.1
    · simpa [packWords, extractByte] using hx.2.1
    · simpa [packWords, extractByte] using hx.2.2.1
  | case5 b0 b1 b2 b3 rest ih =>
    intro h i hi
    have hb0 : b0 < 256 := h b0 (by simp)
    have hb1 : b1 < 256 := h b1 (by simp)
    have hb2 : b2 < 256 := h b2 (by simp)
    have hb3 : b3 < 256 := h b3 (by simp)
    have hx := packWord4_extract hb0 hb1 hb2 hb3
    by_cases hsm : i < 4
    · interval_cases i
      · simpa [packWords, extractByte] using hx.1
      · simpa [packWords, extractByte] using hx.2.1
      · simpa [packWords, extractByte] using hx.2.2.1
      · simpa [packWords, extractByte] using hx.2.2.2
    · obtain ⟨j, rfl⟩ : ∃ j, i = j + 4 := ⟨i - 4, by omega⟩
      have hrest : ∀ b ∈ rest, b < 256 := fun b hb => h b (by simp [hb])
      have hj : j < rest.length := by
        simp at hi
        omega
      have := ih hrest j hj
      have hdiv : (j + 4) / 4 = j / 4 + 1 := by omega
      have hmod : (j + 4) % 4 = j % 4 := by omega
      simpa [packWords, extractByte, hdiv, hmod] using this

/-- C10: for every byte sequence, `arrayBufferToWordArray` packs the
bytes big-endian into 32-bit words with `sigBytes` the byte length, and
the extraction used by `aesDecrypt`'s final loop
(`(words[i >>> 2] >>> (24 - (i % 4) * 8)) & 0xff`) recovers exactly the
original bytes: the conversion is a lossless round trip. -/
theorem wordArray_roundtrip (bytes : List Nat) (h : ∀ b ∈ bytes, b < 256) :
    (arrayBufferToWordArray bytes).sigBytes = bytes.length ∧
      wordArrayToBytes (arrayBufferToWordArray bytes).words
        (arrayBufferToWordArray bytes).sigBytes = bytes := by
  refine ⟨rfl, ?_⟩
  show wordArrayToBytes (packWords bytes) bytes.length = bytes
  unfold wordArrayToBytes
  apply List.ext_getElem
  · simp
  · intro i h1 h2
    simp only [List.getElem_map, List.getElem_range]
    rw [extractByte_packWords bytes h i h2]
    exact List.getD_eq_getElem bytes 0 h2

/-- C10 witness: a concrete 5-byte buffer (one full word plus a partial
word) survives the round trip. -/
theorem wordArray_roundtrip_witness :
    (∀ b ∈ [0x12, 0xAB, 0xFF, 0x00, 0x07], b < 256) ∧
      (arrayBufferToWordArray [0x12, 0xAB, 0xFF, 0x00, 0x07]).sigBytes = 5 ∧
      wordArrayToBytes (arrayBufferToWordArray [0x12, 0xAB, 0xFF, 0x00, 0x07]).words
        (arrayBufferToWordArray [0x12, 0xAB, 0xFF, 0x00, 0x07]).sigBytes =
        [0x12, 0xAB, 0xFF, 0x00, 0x07] := by
  have h : ∀ b ∈ [0x12, 0xAB, 0xFF, 0x00, 0x07], b < 256 := by decide
  have hr := wordArray_roundtrip [0x12, 0xAB, 0xFF, 0x00, 0x07] h
  exact ⟨h, hr.1, hr.2⟩

/-! ### Claims about the pause controller, URL resolution and decryption -/

/-- C8: the pause controller is idempotent and never leaves waiters
blocked after destruction: `pause()` while paused and `resume()` while
unpaused change nothing; `waitIfPaused()` suspends exactly when paused
(and leaves the pause flag alone); `destroy()` leaves the controller
unpaused with every pending waiter resolved.  The invariant `Inv`
describes the states reachable through the public methods; the final
conjuncts show all five operations preserve it (and the fresh controller
satisfies it), so the hypothesised states are exactly the reachable
ones. -/
theorem pauseResumeController_spec (s : PauseResumeController)
    (h : PauseResumeController.Inv s) :
    (s.isPaused = true → PauseResumeController.pause s = s) ∧
    (s.isPaused = false → PauseResumeController.resume s = s) ∧
    (PauseResumeController.waitIfPaused s).2 = s.isPaused ∧
    (PauseResumeController.waitIfPaused s).1.isPaused = s.isPaused ∧
    (PauseResumeController.destroy s).isPaused = false ∧
    (PauseResumeController.destroy s).waiters = 0 ∧
    PauseResumeController.Inv PauseResumeController.init ∧
    PauseResumeController.Inv (PauseResumeController.pause s) ∧
    PauseResumeController.Inv (PauseResumeController.resume s) ∧
    PauseResumeController.Inv (PauseResumeController.waitIfPaused s).1 ∧
    PauseResumeController.Inv (PauseResumeController.destroy s) := by
  obtain ⟨ip, hr, hp, w⟩ := s
  obtain ⟨h1, h2, h3⟩ := h
  simp only at h1 h2 h3
  cases ip <;> cases hr <;> cases hp <;>
    simp_all [PauseResumeController.pause, PauseResumeController.resume,
      PauseResumeController.waitIfPaused, PauseResumeController.destroy,
      PauseResumeController.Inv, PauseResumeController.init]

/-- C8 witness: the spec theorem applied to a reachable paused state with
two blocked waiters. -/
theorem pauseResumeController_spec_witness :
    PauseResumeController.Inv ⟨true, true, true, 2⟩ ∧
      (PauseResumeController.destroy ⟨true, true, true, 2⟩).waiters = 0 ∧
      (PauseResumeController.waitIfPaused ⟨true, true, true, 2⟩).2 = true := by
  have h : PauseResumeController.Inv ⟨true, true, true, 2⟩ := by decide
  have hs := pauseResumeController_spec ⟨true, true, true, 2⟩ h
  exact ⟨h, hs.2.2.2.2.2.1, hs.2.2.1⟩

/-- C7 counterexample: `applyURL` tests the prefix `http`, not
absoluteness.  The relative reference `httpfake.ts` is not an absolute
URL and does not start with `/`, so the claim says the base's last path
segment is replaced — but the code returns it unchanged. -/
theorem applyURL_cex :
    isAbsoluteURLSpec "httpfake.ts" = false ∧
      strStartsWith "httpfake.ts" "/" = false ∧
      applyURL "httpfake.ts" "http://example.com/dir/file.m3u8" = some "httpfake.ts" ∧
      applyURL "httpfake.ts" "http://example.com/dir/file.m3u8" ≠
        some (strJoin "/"
            (strSplitOn "http://example.com/dir/file.m3u8" "/").dropLast ++ "/" ++
          "httpfake.ts") := by
  refine ⟨by decide, by decide, rfl, ?_⟩
  decide

/-- C7 amended: for every `targetURL` and parseable `baseURL`, `applyURL`
returns `targetURL` unchanged when it starts with `http`; when it starts
with `/`, it returns the base's scheme and host prefixed to it; otherwise
it returns `baseURL` with its last path segment replaced by
`targetURL`. -/
theorem applyURL_spec (t b : String) (u : URLParts) (hb : parseURL b = some u) :
    (strStartsWith t "http" = true → applyURL t b = some t) ∧
    (strStartsWith t "http" = false → strStartsWith t "/" = true →
      applyURL t b = some (u.protocol ++ "//" ++ u.host ++ t)) ∧
    (strStartsWith t "http" = false → strStartsWith t "/" = false →
      applyURL t b =
        some (strJoin "/" (strSplitOn b "/").dropLast ++ "/" ++ t)) := by
  refine ⟨fun h1 => ?_, fun h1 h2 => ?_, fun h1 h2 => ?_⟩ <;>
    simp [applyURL, h1, hb]
  · simp [h2]
  · simp [h2]

/-- C7 witness: the three branches at concrete URLs. -/
theorem applyURL_spec_witness :
    parseURL "http://e.com/a/b.m3u8" = some ⟨"http:", "e.com"⟩ ∧
      applyURL "http://other.com/x.ts" "http://e.com/a/b.m3u8" =
        some "http://other.com/x.ts" ∧
      applyURL "/root/x.ts" "http://e.com/a/b.m3u8" = some "http://e.com/root/x.ts" ∧
      applyURL "seg.ts" "http://e.com/a/b.m3u8" = some "http://e.com/a/seg.ts" := by
  have hb : parseURL "http://e.com/a/b.m3u8" = some ⟨"http:", "e.com"⟩ := by decide
  have hs := applyURL_spec "http://other.com/x.ts" "http://e.com/a/b.m3u8" _ hb
  have h1 := hs.1 (by decide)
  have hs2 := applyURL_spec "/root/x.ts" "http://e.com/a/b.m3u8" _ hb
  have h2 := hs2.2.1 (by decide) (by decide)
  have hs3 := applyURL_spec "seg.ts" "http://e.com/a/b.m3u8" _ hb
  have h3 := hs3.2.2 (by decide) (by decide)
  exact ⟨hb, h1, h2.trans (by decide), h3.trans (by decide)⟩

/-- C9: `aesDecrypt` returns its data unchanged when the key is empty,
and `downloadSegment` stores (in buffered mode, where the stored payload
is observable in the task's map) the decrypted bytes exactly when the
task's cached key is non-empty and the raw fetched bytes otherwise. -/
theorem aesDecrypt_applied_iff_key (cryptoAES : WordArrayK → WordArrayK → String → WordArrayK)
    (env : RunEnv) (task : M3U8Task) (totalSegments : Nat) (st : RunState)
    (index : Nat) (d : Payload) (data : List Nat) (iv : String)
    (hab : env.aborted = false) (hw : env.hasWriter = false)
    (hf : env.fetchResult index 0 = .ok d) :
    aesDecrypt cryptoAES data none iv = data ∧
    (task.aesConf.key = none →
      mapGet ((downloadSegment env task totalSegments st index 0).1).downloadedSegments
        index = some d) ∧
    (∀ k, task.aesConf.key = some k →
      mapGet ((downloadSegment env task totalSegments st index 0).1).downloadedSegments
        index = some (aesDecrypt env.cryptoAES d (some k) task.aesConf.iv)) := by
  refine ⟨rfl, ?_, ?_⟩
  · intro hk
    simp [downloadSegment, tryDownloadBody, successTail, hab, hw, hf, hk, emit,
      mapGet_mapSet_self]
  · intro k hk
    simp [downloadSegment, tryDownloadBody, successTail, hab, hw, hf, hk, emit,
      mapGet_mapSet_self]

/-- A small concrete three-segment unencrypted task, used to instantiate
theorems with hypotheses. -/
def sampleTask : M3U8Task :=
  { url := "http://e.com/v.m3u8", title := "v", type := .ts,
    tsUrlList := ["http://e.com/s0.ts", "http://e.com/s1.ts", "http://e.com/s2.ts"],
    finishList := [default, default, default],
    downloadIndex := 0, finishNum := 0, errorNum := 0,
    aesConf := { method := "", uri := "", iv := "", key := none },
    durationSecond := 6, segmentDurations := [2, 2, 2],
    rangeDownload := { startSegment := 1, endSegment := 3, targetSegment := 3 },
    totalSize := 0, downloadedSegments := [] }

/-- A healthy buffered-mode environment: every fetch of segment `i`
returns `[i]`, the sink accepts everything, nothing is aborted. -/
def sampleEnv : RunEnv :=
  { fetchResult := fun i _ => .ok [i], cryptoAES := fun w _ _ => w,
    writeOk := fun _ _ => true, maxRetries := 3, concurrency := 6,
    hasWriter := false, aborted := false }

/-- C9 witness: with no cached key the raw fetched bytes land in the
payload map, and `aesDecrypt` with an empty key is the identity. -/
theorem aesDecrypt_applied_iff_key_witness :
    aesDecrypt (fun w _ _ => w) [1, 2] none "" = [1, 2] ∧
      mapGet ((downloadSegment sampleEnv sampleTask 3 (initState sampleTask)
        0 0).1).downloadedSegments 0 = some [0] := by
  have h := aesDecrypt_applied_iff_key (fun w _ _ => w) sampleEnv sampleTask 3
    (initState sampleTask) 0 [0] [1, 2] "" rfl rfl rfl
  exact ⟨h.1, h.2.1 rfl⟩

/-! ### Ordering facts about the sequencer -/

theorem flushLoop_none {pw : List (Nat × PWEntry)} {n : Nat}
    (w : Nat → Payload → Bool) (a : Bool) (h : mapGet pw n = none) :
    flushLoop w a pw n = { writes := [], pending := pw, next := n, err := none } := by
  unfold flushLoop
  split
  · rfl
  · simp_all

theorem flushLoop_aborted {pw : List (Nat × PWEntry)} {n : Nat} {e : PWEntry}
    (w : Nat → Payload → Bool) (h : mapGet pw n = some e) :
    flushLoop w true pw n =
      { writes := [], pending := pw, next := n, err := some .cancelled } := by
  unfold flushLoop
  split
  · simp_all
  · simp

theorem flushLoop_failed {pw : List (Nat × PWEntry)} {n : Nat}
    (w : Nat → Payload → Bool) (h : mapGet pw n = some .failed) :
    flushLoop w false pw n = flushLoop w false (mapDelete pw n) (n + 1) := by
  conv_lhs => rw [flushLoop]
  split
  · simp_all
  · next e heq =>
    rw [heq] at h
    simp only [Option.some_inj] at h
    subst h
    simp

theorem flushLoop_data_ok {pw : List (Nat × PWEntry)} {n : Nat} {d : Payload}
    (w : Nat → Payload → Bool) (h : mapGet pw n = some (.data d))
    (hw : w n d = true) :
    flushLoop w false pw n =
      { flushLoop w false (mapDelete pw n) (n + 1) with
        writes := (n, d) :: (flushLoop w false (mapDelete pw n) (n + 1)).writes } := by
  conv_lhs => rw [flushLoop]
  split
  · simp_all
  · next e heq =>
    rw [heq] at h
    simp only [Option.some_inj] at h
    subst h
    simp [hw]

theorem flushLoop_data_fail {pw : List (Nat × PWEntry)} {n : Nat} {d : Payload}
    (w : Nat → Payload → Bool) (h : mapGet pw n = some (.data d))
    (hw : w n d = false) :
    flushLoop w false pw n =
      { writes := [], pending := pw, next := n, err := some .writeFailure } := by
  unfold flushLoop
  split
  · simp_all
  · next e heq =>
    rw [heq] at h
    simp only [Option.some_inj] at h
    subst h
    simp [hw]

theorem flushLoop_spec (w : Nat → Payload → Bool) (a : Bool) :
    ∀ pw n,
      List.Chain' (· < ·) ((flushLoop w a pw n).writes.map Prod.fst) ∧
      (∀ p ∈ (flushLoop w a pw n).writes,
        n ≤ p.1 ∧ p.1 < (flushLoop w a pw n).next ∧ (p.1, PWEntry.data p.2) ∈ pw) ∧
      n ≤ (flushLoop w a pw n).next ∧
      (∀ q ∈ (flushLoop w a pw n).pending, q ∈ pw) := by
  intro pw n
  induction pw, n using flushLoop.induct w a with
  | case1 pw n h =>
    rw [flushLoop_none w a h]
    simp
  | case2 pw n e h ha =>
    subst ha
    rw [flushLoop_aborted w h]
    simp
  | case3 pw n hna h h2 ih =>
    obtain rfl : a = false := by simpa using hna
    rw [flushLoop_failed w h]
    obtain ⟨ih1, ih2, ih3, ih4⟩ := ih
    refine ⟨ih1, fun p hp => ?_, by omega, fun q hq => mapDelete_subset _ _ _ (ih4 q hq)⟩
    obtain ⟨hp1, hp2, hp3⟩ := ih2 p hp
    exact ⟨by omega, hp2, mapDelete_subset _ _ _ hp3⟩
  | case4 pw n hna d h hw h2 ih =>
    obtain rfl : a = false := by simpa using hna
    rw [flushLoop_data_ok w h hw]
    obtain ⟨ih1, ih2, ih3, ih4⟩ := ih
    refine ⟨?_, ?_, by simpa using by omega, fun q hq => mapDelete_subset _ _ _ (ih4 q hq)⟩
    · simp only [List.map_cons]
      rw [List.chain'_cons']
      refine ⟨fun b hb => ?_, ih1⟩
      rcases hhead : (flushLoop w false (mapDelete pw n) (n + 1)).writes with _ | ⟨p, rest⟩
      · rw [hhead] at hb
        simp at hb
      · rw [hhead] at hb
        simp only [List.map_cons, List.head?_cons, Option.mem_def, Option.some_inj] at hb
        subst hb
        have := (ih2 p (by rw [hhead]; simp)).1
        omega
    · intro p hp
      simp only [List.mem_cons] at hp
      rcases hp with rfl | hp
      · exact ⟨le_refl _, by simpa using by omega, mapGet_mem h⟩
      · obtain ⟨hp1, hp2, hp3⟩ := ih2 p hp
        exact ⟨by omega, hp2, mapDelete_subset _ _ _ hp3⟩
  | case5 pw n hna d h hw h2 =>
    obtain rfl : a = false := by simpa using hna
    rw [flushLoop_data_fail w h (by simpa using hw)]
    simp

/-- Run invariant of the sequencer machine: the sink is strictly
increasing by index, bounded by the cursor, above the range start, and
everything in the sink or the reorder buffer stems from an insert event
of the run. -/
def SeqGood (events : List SeqEvent) (start : Nat) (s : SeqState) : Prop :=
  List.Chain' (· < ·) (s.sink.map Prod.fst) ∧
  (∀ p ∈ s.sink, start ≤ p.1 ∧ p.1 < s.nextWriteIndex) ∧
  start ≤ s.nextWriteIndex ∧
  (∀ p ∈ s.sink, SeqEvent.insert p.1 (PWEntry.data p.2) ∈ events) ∧
  (∀ q ∈ s.pendingWrites, SeqEvent.insert q.1 q.2 ∈ events)

theorem seqStep_good (w : Nat → Payload → Bool) (events : List SeqEvent) (start : Nat)
    (s : SeqState) (e : SeqEvent) (hs : SeqGood events start s) (he : e ∈ events) :
    SeqGood events start (seqStep w s e) := by
  obtain ⟨h1, h2, h3, h4, h5⟩ := hs
  cases e with
  | insert i en =>
    refine ⟨h1, h2, h3, h4, ?_⟩
    intro q hq
    simp only [seqStep, mapSet, List.mem_cons] at hq
    rcases hq with rfl | hq
    · exact he
    · exact h5 q (mapDelete_subset _ _ _ hq)
  | flush =>
    simp only [seqStep]
    by_cases hh : s.halted
    · simp only [hh, if_true]
      exact ⟨h1, h2, h3, h4, h5⟩
    · simp only [hh, Bool.false_eq_true, if_false]
      obtain ⟨c1, c2, c3, c4⟩ := flushLoop_spec w false s.pendingWrites s.nextWriteIndex
      refine ⟨?_, ?_, ?_, ?_, ?_⟩
      · rw [List.map_append, List.chain'_append]
        refine ⟨h1, c1, fun x hx y hy => ?_⟩
        obtain ⟨p, hp, rfl⟩ := List.exists_of_mem_map (List.mem_of_mem_getLast? hx)
        obtain ⟨q, hq, rfl⟩ := List.exists_of_mem_map (List.mem_of_mem_head? hy)
        have hxlt := (h2 p hp).2
        have hyge := (c2 q hq).1
        omega
      · intro p hp
        rcases List.mem_append.1 hp with hp | hp
        · exact ⟨(h2 p hp).1, lt_of_lt_of_le (h2 p hp).2 c3⟩
        · exact ⟨le_trans h3 (c2 p hp).1, (c2 p hp).2.1⟩
      · exact le_trans h3 c3
      · intro p hp
        rcases List.mem_append.1 hp with hp | hp
        · exact h4 p hp
        · exact h5 _ (c2 p hp).2.2
      · intro q hq
        exact h5 q (c4 q hq)

theorem foldl_seqStep_good (w : Nat → Payload → Bool) (events : List SeqEvent)
    (start : Nat) :
    ∀ (evs : List SeqEvent) (s : SeqState), (∀ e ∈ evs, e ∈ events) →
      SeqGood events start s → SeqGood events start (evs.foldl (seqStep w) s) := by
  intro evs
  induction evs with
  | nil => intro s _ hs; exact hs
  | cons e rest ih =>
    intro s hsub hs
    simp only [List.foldl_cons]
    exact ih _ (fun x hx => hsub x (by simp [hx]))
      (seqStep_good w events start s e hs (hsub e (by simp)))

/-- C1: over every interleaving of worker completions (inserts) and
serialized flush passes, the payloads the sequencer delivers to the sink
are in strictly increasing segment-index order, all at or above the
range's first index `start`, and each delivered payload is one a worker
inserted for exactly that index (failure markers are never delivered).
Moreover a single flush pass writes the entry at `nextWriteIndex` only
when it exists — halting unchanged the moment the next required index
has no entry — and drops a failure marker and advances without
writing. -/
theorem sequencer_orders_writes (writeOk : Nat → Payload → Bool) (start : Nat)
    (events : List SeqEvent) :
    List.Chain' (· < ·) ((runSeq writeOk start events).sink.map Prod.fst) ∧
    (∀ p ∈ (runSeq writeOk start events).sink,
      start ≤ p.1 ∧ SeqEvent.insert p.1 (PWEntry.data p.2) ∈ events) ∧
    (∀ pw n, mapGet pw n = none →
      flushLoop writeOk false pw n =
        { writes := [], pending := pw, next := n, err := none }) ∧
    (∀ pw n, mapGet pw n = some .failed →
      flushLoop writeOk false pw n =
        flushLoop writeOk false (mapDelete pw n) (n + 1)) := by
  have hinit : SeqGood events start (seqInit start) := by
    refine ⟨by simp [seqInit], ?_, ?_, ?_, ?_⟩ <;> simp [seqInit]
  have hg := foldl_seqStep_good writeOk events start events (seqInit start)
    (fun _ he => he) hinit
  obtain ⟨g1, g2, _, g4, _⟩ := hg
  refine ⟨g1, fun p hp => ⟨(g2 p hp).1, g4 p hp⟩, ?_, ?_⟩
  · intro pw n h
    exact flushLoop_none writeOk false h
  · intro pw n h
    exact flushLoop_failed writeOk h

/-- C1 witness: a run in which segment 1 completes first; the sink
nevertheless receives index 0 then index 2 (1 was marked failed), and the
single-pass facts hold on the empty buffer. -/
theorem sequencer_orders_writes_witness :
    List.Chain' (· < ·)
      ((runSeq (fun _ _ => true) 0
        [.insert 1 .failed, .flush, .insert 0 (.data [5]), .flush,
         .insert 2 (.data [7]), .flush]).sink.map Prod.fst) ∧
    (∀ p ∈ (runSeq (fun _ _ => true) 0
        [.insert 1 .failed, .flush, .insert 0 (.data [5]), .flush,
         .insert 2 (.data [7]), .flush]).sink,
      0 ≤ p.1 ∧ SeqEvent.insert p.1 (PWEntry.data p.2) ∈
        [SeqEvent.insert 1 .failed, .flush, .insert 0 (.data [5]), .flush,
         .insert 2 (.data [7]), .flush]) ∧
    flushLoop (fun _ _ => true) false [] 0 =
      { writes := [], pending := [], next := 0, err := none } := by
  have h := sequencer_orders_writes (fun _ _ => true) 0
    [.insert 1 .failed, .flush, .insert 0 (.data [5]), .flush,
     .insert 2 (.data [7]), .flush]
  exact ⟨h.1, h.2.1, h.2.2.1 [] 0 rfl⟩

/-! ### The retry policy of `downloadSegment` -/

theorem flushLoop_err_none {w : Nat → Payload → Bool}
    (hw : ∀ i d, w i d = true) : ∀ pw n, (flushLoop w false pw n).err = none := by
  intro pw n
  induction pw, n using flushLoop.induct w false with
  | case1 pw n h => rw [flushLoop_none w false h]
  | case2 pw n e h ha => simp at ha
  | case3 pw n hna h h2 ih => rw [flushLoop_failed w h]; exact ih
  | case4 pw n hna d h hwr h2 ih => rw [flushLoop_data_ok w h hwr]; exact ih
  | case5 pw n hna d h hwr h2 => simp [hw n d] at hwr

/-- With an always-accepting sink and no abort, `flushPendingWrites`
returns normally and only moves data between the reorder buffer and the
sink. -/
theorem flushPendingWritesM_ok (env : RunEnv) (st : RunState)
    (hw : ∀ i d, env.writeOk i d = true) (hab : env.aborted = false) :
    ∃ st2, flushPendingWritesM env st = (st2, none) ∧
      st2.fetchLog = st.fetchLog ∧ st2.delays = st.delays ∧
      st2.finishList = st.finishList ∧ st2.errorNum = st.errorNum ∧
      st2.progressLog = st.progressLog ∧ st2.completedCount = st.completedCount ∧
      st2.downloadedSegments = st.downloadedSegments ∧ st2.finishNum = st.finishNum ∧
      st2.artifact = st.artifact ∧ st2.writerAborted = st.writerAborted := by
  by_cases hhw : env.hasWriter
  · refine ⟨{ st with
      pendingWrites :=
        (flushLoop env.writeOk env.aborted st.pendingWrites st.nextWriteIndex).pending,
      nextWriteIndex :=
        (flushLoop env.writeOk env.aborted st.pendingWrites st.nextWriteIndex).next,
      sink := st.sink ++
        (flushLoop env.writeOk env.aborted st.pendingWrites st.nextWriteIndex).writes },
      ?_, rfl, rfl, rfl, rfl, rfl, rfl, rfl, rfl, rfl, rfl⟩
    simp only [flushPendingWritesM, hhw, Bool.not_true, Bool.false_eq_true, if_false]
    rw [hab]
    rw [flushLoop_err_none hw]
  · exact ⟨st, by simp [flushPendingWritesM, hhw], rfl, rfl, rfl, rfl, rfl, rfl,
      rfl, rfl, rfl, rfl⟩

theorem updateFinish_length (l : List FinishEntry) (i : Nat)
    (f : FinishEntry → FinishEntry) : (updateFinish l i f).length = l.length := by
  simp [updateFinish]

theorem updateFinish_getD (l : List FinishEntry) (i : Nat)
    (f : FinishEntry → FinishEntry) (h : i < l.length) :
    (updateFinish l i f).getD i default = f (l.getD i default) := by
  unfold updateFinish
  rw [List.getD_eq_getElem _ _ (by simpa using h)]
  rw [List.getElem_set_self]

theorem updateFinish_getElem? (l : List FinishEntry) (i : Nat)
    (f : FinishEntry → FinishEntry) (h : i < l.length) :
    (updateFinish l i f)[i]? = some (f (l.getD i default)) := by
  unfold updateFinish
  rw [List.getElem?_set_self h]

/-- The observable outcome of `downloadSegment` on a segment whose every
fetch attempt fails: no exception, one fetch per attempt, one fixed delay
per retry, the segment marked failed with the final retry count, the
error counter bumped once. -/
def AllFailOut (index maxR : Nat) (fetchLog0 : List (Nat × Nat)) (delays0 : List Nat)
    (errorNum0 : Nat) (atts : List Nat) (k : Nat)
    (dls0 : List (Nat × Payload)) (pl0 : List DownloadProgress)
    (out : RunState × Option RunErr) : Prop :=
  out.2 = none ∧
  out.1.fetchLog = fetchLog0 ++ atts.map (fun a => (index, a)) ∧
  out.1.delays = delays0 ++ List.replicate k 1000 ∧
  (out.1.finishList.getD index default).status = .error ∧
  (out.1.finishList.getD index default).retryCount = some maxR ∧
  out.1.errorNum = errorNum0 + 1 ∧
  out.1.downloadedSegments = dls0 ∧
  (∀ p ∈ out.1.progressLog, p ∈ pl0 ∨
    ∀ n, p.message ≠ some (.failedSegsAwaitRetry n))

theorem segmentFailureTail_allfail (env : RunEnv) (tot index r maxR : Nat)
    (stY : RunState) (f0 : List (Nat × Nat)) (d0 : List Nat) (e0 : Nat)
    (dls0 : List (Nat × Payload)) (pl0 : List DownloadProgress)
    (hw : ∀ i d, env.writeOk i d = true) (hab : env.aborted = false)
    (hidx : index < stY.finishList.length)
    (hf : stY.fetchLog = f0 ++ [(index, r)]) (hd : stY.delays = d0)
    (he : stY.errorNum = e0) (hr : r = maxR)
    (hdls : stY.downloadedSegments = dls0)
    (hpl : ∀ p ∈ stY.progressLog, p ∈ pl0 ∨
      ∀ n, p.message ≠ some (.failedSegsAwaitRetry n)) :
    AllFailOut index maxR f0 d0 e0 [r] 0 dls0 pl0
      (segmentFailureTail env tot stY index r) := by
  subst hr
  unfold segmentFailureTail AllFailOut
  by_cases hhw : env.hasWriter
  · simp only [hhw, if_true]
    obtain ⟨st2, heq, hfl, hdl, hfin, herr, hprog, _, hsegs, _⟩ :=
      flushPendingWritesM_ok env
        { stY with
          errorNum := stY.errorNum + 1,
          finishList := updateFinish stY.finishList index
            (fun en => { en with status := .error, retryCount := some r }),
          pendingWrites := mapSet stY.pendingWrites index .failed } hw hab
    rw [heq]
    simp only [emit]
    rw [hfl, hdl, hfin, herr, hprog, hsegs]
    simp only [hf, hd, he, hdls]
    refine ⟨?_, ?_, ?_, ?_, ?_, ?_, ?_, ?_⟩
    · simp
    · simp
    · simp
    · simp [updateFinish_getElem? _ _ _ hidx]
    · simp [updateFinish_getElem? _ _ _ hidx]
    · simp
    · simp
    · intro p hp
      simp only [List.mem_append, List.mem_singleton] at hp
      rcases hp with hp | rfl
      · exact hpl p hp
      · exact Or.inr (by simp)
  · simp only [hhw, Bool.false_eq_true, if_false]
    simp only [emit, AllFailOut]
    simp only [hf, hd, he, hdls]
    refine ⟨?_, ?_, ?_, ?_, ?_, ?_, ?_, ?_⟩
    · simp
    · simp
    · simp
    · simp [updateFinish_getElem? _ _ _ hidx]
    · simp [updateFinish_getElem? _ _ _ hidx]
    · simp
    · simp
    · intro p hp
      simp only [List.mem_append, List.mem_singleton] at hp
      rcases hp with hp | rfl
      · exact hpl p hp
      · exact Or.inr (by simp)

theorem AllFailOut_extend (index maxR : Nat) (f0 : List (Nat × Nat))
    (d0 : List Nat) (e0 r k : Nat) (out : RunState × Option RunErr)
    (f1 : List (Nat × Nat)) (d1 : List Nat)
    (dls0 : List (Nat × Payload)) (pl0 : List DownloadProgress)
    (dls1 : List (Nat × Payload)) (pl1 : List DownloadProgress)
    (h : AllFailOut index maxR f1 d1 e0 ((List.range (k + 1)).map (fun a => r + 1 + a))
      k dls1 pl1 out)
    (hf : f1 = f0 ++ [(index, r)]) (hd : d1 = d0 ++ [1000])
    (hdls : dls1 = dls0)
    (hpl : ∀ p ∈ pl1, p ∈ pl0 ∨ ∀ n, p.message ≠ some (.failedSegsAwaitRetry n)) :
    AllFailOut index maxR f0 d0 e0 ((List.range (k + 2)).map (fun a => r + a))
      (k + 1) dls0 pl0 out := by
  obtain ⟨h1, h2, h3, h4, h5, h6, h7, h8⟩ := h
  subst hf
  subst hd
  refine ⟨h1, ?_, ?_, h4, h5, h6, by rw [h7, hdls], ?_⟩
  case refine_3 =>
    intro p hp
    rcases h8 p hp with hmem | hne
    · exact hpl p hmem
    · exact Or.inr hne
  · rw [h2]
    have : (List.range (k + 2)).map (fun a => r + a) =
        r :: (List.range (k + 1)).map (fun a => r + 1 + a) := by
      rw [List.range_succ_eq_map]
      simp only [List.map_cons, List.map_map]
      refine congrArg₂ _ (by omega) (List.map_congr_left fun a _ => ?_)
      simp [Function.comp]
      omega
    rw [this]
    simp
  · rw [h3]
    simp [List.replicate_succ]

theorem tryDownloadBody_fetchfail (env : RunEnv) (task : M3U8Task)
    (tot : Nat) (st : RunState) (index r : Nat) (hab : env.aborted = false)
    (hfet : env.fetchResult index r = .error ()) :
    tryDownloadBody env task tot st index r =
      ({ st with fetchLog := st.fetchLog ++ [(index, r)] }, some .fetchFailure) := by
  simp [tryDownloadBody, hab, hfet]

theorem downloadSegment_allfail_aux (env : RunEnv) (task : M3U8Task)
    (totalSegments index : Nat)
    (hfail : ∀ r, env.fetchResult index r = .error ())
    (hw : ∀ i d, env.writeOk i d = true)
    (hab : env.aborted = false) :
    ∀ (k r : Nat) (st : RunState), r + k = env.maxRetries →
      index < st.finishList.length →
      AllFailOut index env.maxRetries st.fetchLog st.delays st.errorNum
        ((List.range (k + 1)).map (fun a => r + a)) k
        st.downloadedSegments st.progressLog
        (downloadSegment env task totalSegments st index r) := by
  intro k
  induction k with
  | zero =>
    intro r st hr hidx
    have hnr : ¬r < env.maxRetries := by omega
    unfold downloadSegment
    simp only [hab, Bool.false_eq_true, if_false]
    rw [tryDownloadBody_fetchfail env task totalSegments _ index r hab (hfail r)]
    simp only [reduceCtorEq, if_false, hnr, dite_false, List.range_succ,
      List.range_zero, List.nil_append, List.map_cons, List.map_nil, Nat.add_zero]
    exact segmentFailureTail_allfail env totalSegments index r env.maxRetries _
      st.fetchLog st.delays st.errorNum st.downloadedSegments st.progressLog hw hab
      (by simpa [updateFinish_length] using hidx) (by simp) (by simp) (by simp)
      (by omega) (by simp) (fun p hp => Or.inl (by simpa using hp))
  | succ k ih =>
    intro r st hr hidx
    have hlt : r < env.maxRetries := by omega
    unfold downloadSegment
    simp only [hab, Bool.false_eq_true, if_false]
    rw [tryDownloadBody_fetchfail env task totalSegments _ index r hab (hfail r)]
    simp only [reduceCtorEq, if_false, hlt, dite_true, emit]
    refine AllFailOut_extend index env.maxRetries st.fetchLog st.delays
      st.errorNum r k _ _ _ st.downloadedSegments st.progressLog _ _
      (ih (r + 1) _ (by omega) (by simpa [updateFinish_length] using hidx))
      (by simp) (by simp) (by simp) ?_
    intro p hp
    simp only [List.mem_append, List.mem_singleton] at hp
    rcases hp with hp | rfl
    · exact Or.inl hp
    · exact Or.inr (by simp)


/-- An environment in which every fetch of every segment fails
(`maxRetries = 2`), buffered mode. -/
def allFailEnv : RunEnv :=
  { fetchResult := fun _ _ => .error (), cryptoAES := fun w _ _ => w,
    writeOk := fun _ _ => true, maxRetries := 2, concurrency := 6,
    hasWriter := false, aborted := false }

/-- C2: when every fetch of segment `index` fails with a non-write error,
`downloadSegment` returns normally (the run continues with the remaining
queue items), having attempted the same index `maxRetries + 1` times
(attempt numbers `0..maxRetries`, the default budget being 3) with a
fixed 1000 ms delay before each retry; the segment's `finishList` entry
ends with status `error` and `retryCount = maxRetries`, and the task's
`errorNum` increments by exactly one. -/
theorem downloadSegment_retry_policy (env : RunEnv) (task : M3U8Task)
    (totalSegments : Nat) (st : RunState) (index : Nat)
    (hfail : ∀ r, env.fetchResult index r = .error ())
    (hw : ∀ i d, env.writeOk i d = true)
    (hab : env.aborted = false)
    (hidx : index < st.finishList.length) :
    (downloadSegment env task totalSegments st index 0).2 = none ∧
    (downloadSegment env task totalSegments st index 0).1.fetchLog =
      st.fetchLog ++ (List.range (env.maxRetries + 1)).map (fun a => (index, a)) ∧
    (downloadSegment env task totalSegments st index 0).1.delays =
      st.delays ++ List.replicate env.maxRetries 1000 ∧
    ((downloadSegment env task totalSegments st index 0).1.finishList.getD index
      default).status = .error ∧
    ((downloadSegment env task totalSegments st index 0).1.finishList.getD index
      default).retryCount = some env.maxRetries ∧
    (downloadSegment env task totalSegments st index 0).1.errorNum =
      st.errorNum + 1 ∧
    defaultMaxRetries = 3 := by
  obtain ⟨h1, h2, h3, h4, h5, h6, h7, h8⟩ := downloadSegment_allfail_aux env task
    totalSegments index hfail hw hab env.maxRetries 0 st (by omega) hidx
  refine ⟨h1, ?_, h3, h4, h5, h6, rfl⟩
  rw [h2, List.map_map]
  congr 1
  exact List.map_congr_left fun a _ => by simp [Function.comp]

/-- C2 witness: three failing attempts on segment 0 with
`maxRetries = 2`: two 1000 ms delays, attempts 0, 1, 2 logged, one error
counted, no exception. -/
theorem downloadSegment_retry_policy_witness :
    (downloadSegment allFailEnv sampleTask 3 (initState sampleTask) 0 0).2 = none ∧
    (downloadSegment allFailEnv sampleTask 3 (initState sampleTask) 0 0).1.delays =
      [1000, 1000] ∧
    (downloadSegment allFailEnv sampleTask 3 (initState sampleTask) 0 0).1.fetchLog =
      [(0, 0), (0, 1), (0, 2)] ∧
    (downloadSegment allFailEnv sampleTask 3 (initState sampleTask) 0 0).1.errorNum =
      1 := by
  have h := downloadSegment_retry_policy allFailEnv sampleTask 3
    (initState sampleTask) 0 (fun _ => rfl) (fun _ _ => rfl) rfl (by decide)
  exact ⟨h.1, h.2.2.1.trans rfl, h.2.1.trans rfl, h.2.2.2.2.2.1.trans rfl⟩

/-! ### Write failures are fatal -/

/-- C3: a sink-write failure is never retried and kills the session:
(1) when the sink rejects segment `index`'s own payload (the flush pass
reaches it because `nextWriteIndex = index`), `downloadSegment` re-throws
the write error at once — no retry delay is added and the segment was
fetched exactly once; (2) `processQueue` stops at a segment that threw,
leaving the rest of the queue unprocessed; (3) a run in stream mode that
ends with any thrown error aborts the stream writer. -/
theorem writeFailure_fatal :
    (∀ (env : RunEnv) (task : M3U8Task) (totalSegments : Nat) (st : RunState)
      (index : Nat) (d : Payload),
      env.aborted = false → env.hasWriter = true →
      env.fetchResult index 0 = .ok d → st.nextWriteIndex = index →
      (∀ d2, env.writeOk index d2 = false) →
      (downloadSegment env task totalSegments st index 0).2 = some .writeFailure ∧
      (downloadSegment env task totalSegments st index 0).1.delays = st.delays ∧
      (downloadSegment env task totalSegments st index 0).1.fetchLog =
        st.fetchLog ++ [(index, 0)]) ∧
    (∀ (env : RunEnv) (task : M3U8Task) (totalSegments : Nat) (st : RunState)
      (i : Nat) (rest : List Nat) (e : RunErr),
      env.aborted = false →
      (downloadSegment env task totalSegments st i 0).2 = some e →
      processQueue env task totalSegments st (i :: rest) =
        ((downloadSegment env task totalSegments st i 0).1, some e)) ∧
    (∀ (env : RunEnv) (task : M3U8Task) (e : RunErr),
      env.hasWriter = true → (downloadM3U8Video env task).2 = some e →
      (downloadM3U8Video env task).1.writerAborted = true) := by
  refine ⟨?_, ?_, ?_⟩
  · intro env task totalSegments st index d hab hhw hf hnext hwfail
    rcases hkey : task.aesConf.key with _ | k
    · simp [downloadSegment, tryDownloadBody, hab, hf, hkey, hhw,
        flushPendingWritesM, hnext,
        flushLoop_data_fail env.writeOk
          (mapGet_mapSet_self st.pendingWrites index (PWEntry.data d)) (hwfail d)]
    · simp [downloadSegment, tryDownloadBody, hab, hf, hkey, hhw,
        flushPendingWritesM, hnext,
        flushLoop_data_fail env.writeOk
          (mapGet_mapSet_self st.pendingWrites index
            (PWEntry.data (aesDecrypt env.cryptoAES d (some k) task.aesConf.iv)))
          (hwfail _)]
  · intro env task totalSegments st i rest e hab hds
    rcases hd : downloadSegment env task totalSegments st i 0 with ⟨st', r⟩
    rw [hd] at hds
    simp at hds
    subst hds
    simp [processQueue, hab, hd]
  · intro env task e hhw
    unfold downloadM3U8Video
    rcases hwp : workerPhase env task with ⟨st, r⟩
    rcases r with _ | e2
    · simp only [hhw, if_true]
      rcases hfp : flushPendingWritesM env st with ⟨st2, r2⟩
      rcases r2 with _ | e3
      · simp
      · simp
    · simp [hhw]

/-- A streaming-mode environment whose sink rejects every write. -/
def writeRejectEnv : RunEnv :=
  { fetchResult := fun i _ => .ok [i], cryptoAES := fun w _ _ => w,
    writeOk := fun _ _ => false, maxRetries := 3, concurrency := 6,
    hasWriter := true, aborted := false }

/-- C3 witness: with a rejecting sink, segment 0 throws the write error
with no retry delay, and the whole run ends with the writer aborted. -/
theorem writeFailure_fatal_witness :
    (downloadSegment writeRejectEnv sampleTask (totalSegmentsOf sampleTask)
      (initState sampleTask) 0 0).2 = some .writeFailure ∧
    (downloadSegment writeRejectEnv sampleTask (totalSegmentsOf sampleTask)
      (initState sampleTask) 0 0).1.delays = [] ∧
    (downloadM3U8Video writeRejectEnv sampleTask).1.writerAborted = true := by
  have h1 := writeFailure_fatal.1 writeRejectEnv sampleTask
    (totalSegmentsOf sampleTask) (initState sampleTask) 0 [0]
    rfl rfl rfl rfl (fun _ => rfl)
  have h2 := writeFailure_fatal.2.1 writeRejectEnv sampleTask
    (totalSegmentsOf sampleTask) (initState sampleTask) 0 [1, 2] .writeFailure
    rfl h1.1
  have hqof : queueOf sampleTask = [0, 1, 2] := rfl
  have hres : (downloadM3U8Video writeRejectEnv sampleTask).2 =
      some .writeFailure := by
    unfold downloadM3U8Video workerPhase
    rw [hqof, h2]
    simp [writeRejectEnv]
  have h3 := writeFailure_fatal.2.2 writeRejectEnv sampleTask .writeFailure rfl hres
  exact ⟨h1.1, h1.2.1.trans rfl, h3⟩

/-! ### Buffered-mode runs never throw and never finalize on partial
failure -/

theorem tryDownloadBody_buffered (env : RunEnv) (task : M3U8Task) (tot : Nat)
    (st : RunState) (index r : Nat)
    (hab : env.aborted = false) (hhw : env.hasWriter = false) :
    ((tryDownloadBody env task tot st index r).2 = none ∨
      (tryDownloadBody env task tot st index r).2 = some .fetchFailure) ∧
    (tryDownloadBody env task tot st index r).1.artifact = st.artifact ∧
    (∀ p ∈ (tryDownloadBody env task tot st index r).1.progressLog,
      p ∈ st.progressLog ∨ p.status = .downloading) := by
  unfold tryDownloadBody
  rcases hf : env.fetchResult index r with e | d
  · refine ⟨Or.inr (by simp [hab, hf]), by simp [hab, hf], ?_⟩
    intro p hp
    simp only [hab, Bool.false_eq_true, if_false, hf] at hp
    exact Or.inl hp
  · rcases hkey : task.aesConf.key with _ | k <;>
    · refine ⟨Or.inl ?_, ?_, ?_⟩ <;>
        simp only [hab, Bool.false_eq_true, if_false, hf, hkey, hhw, successTail,
          emit] <;>
        simp
      intro p hp
      rcases hp with hp | hp
      · exact Or.inl hp
      · exact Or.inr (by simp [hp])

theorem downloadSegment_buffered (env : RunEnv) (task : M3U8Task) (tot : Nat)
    (hab : env.aborted = false) (hhw : env.hasWriter = false) :
    ∀ (st : RunState) (index r : Nat),
      (downloadSegment env task tot st index r).2 = none ∧
      (downloadSegment env task tot st index r).1.artifact = st.artifact ∧
      (∀ p ∈ (downloadSegment env task tot st index r).1.progressLog,
        p ∈ st.progressLog ∨ p.status = .downloading) := by
  intro st index r
  induction st, index, r using downloadSegment.induct env task tot with
  | case1 st index r h => exact absurd h (by simp [hab])
  | case2 st index r hna _stl st' heq =>
    have hb := tryDownloadBody_buffered env task tot _stl index r hab hhw
    rw [heq] at hb
    unfold downloadSegment
    simp only [hab, Bool.false_eq_true, if_false]
    rw [heq]
    exact ⟨rfl, hb.2.1, hb.2.2⟩
  | case3 st index r hna _stl st' heq =>
    have hb := tryDownloadBody_buffered env task tot _stl index r hab hhw
    rw [heq] at hb
    rcases hb.1 with h | h <;> simp at h
  | case4 st index r hna _stl st' e heq hne hlt _stl2 _stl3 ih =>
    have hb := tryDownloadBody_buffered env task tot _stl index r hab hhw
    rw [heq] at hb
    unfold downloadSegment
    simp only [hab, Bool.false_eq_true, if_false]
    rw [heq]
    simp only [hne, if_false, hlt, dite_true]
    obtain ⟨i1, i2, i3⟩ := ih
    refine ⟨i1, ?_, ?_⟩
    · rw [i2]
      exact hb.2.1
    · intro p hp
      rcases i3 p hp with hp2 | hp2
      · simp only [_stl3, _stl2, emit, List.append_eq, List.mem_append,
          List.mem_singleton] at hp2
        rcases hp2 with hp2 | rfl
        · rcases hb.2.2 p hp2 with h | h
          · exact Or.inl h
          · exact Or.inr h
        · exact Or.inr rfl
      · exact Or.inr hp2
  | case5 st index r hna _stl st' e heq hne hnlt =>
    have hb := tryDownloadBody_buffered env task tot _stl index r hab hhw
    rw [heq] at hb
    unfold downloadSegment
    simp only [hab, Bool.false_eq_true, if_false]
    rw [heq]
    simp only [hne, if_false, hnlt, dite_false]
    unfold segmentFailureTail
    simp only [hhw, Bool.false_eq_true, if_false, emit]
    refine ⟨?_, ?_, ?_⟩
    · simp
    · simpa using hb.2.1
    · intro p hp
      simp only [List.append_eq, List.mem_append, List.mem_singleton] at hp
      rcases hp with hp | rfl
      · rcases hb.2.2 p hp with h | h
        · exact Or.inl h
        · exact Or.inr h
      · exact Or.inr rfl

theorem processQueue_buffered (env : RunEnv) (task : M3U8Task) (tot : Nat)
    (hab : env.aborted = false) (hhw : env.hasWriter = false) :
    ∀ (queue : List Nat) (st : RunState),
      (processQueue env task tot st queue).2 = none ∧
      (processQueue env task tot st queue).1.artifact = st.artifact ∧
      (∀ p ∈ (processQueue env task tot st queue).1.progressLog,
        p ∈ st.progressLog ∨ p.status = .downloading) := by
  intro queue
  induction queue with
  | nil =>
    intro st
    exact ⟨rfl, rfl, fun p hp => Or.inl (by simpa [processQueue] using hp)⟩
  | cons i rest ih =>
    intro st
    have hds := downloadSegment_buffered env task tot hab hhw st i 0
    rcases hd : downloadSegment env task tot st i 0 with ⟨st', r⟩
    rw [hd] at hds
    obtain ⟨h1, h2, h3⟩ := hds
    simp only at h1 h2 h3
    subst h1
    simp only [processQueue, hab, Bool.false_eq_true, if_false, hd]
    obtain ⟨i1, i2, i3⟩ := ih st'
    refine ⟨i1, i2.trans h2, ?_⟩
    intro p hp
    rcases i3 p hp with hp2 | hp2
    · exact h3 p hp2
    · exact Or.inr hp2

/-- A one-segment variant of the sample task. -/
def oneSegTask : M3U8Task :=
  { sampleTask with
    tsUrlList := ["http://e.com/s0.ts"],
    finishList := [default],
    segmentDurations := [2],
    rangeDownload := { startSegment := 1, endSegment := 1, targetSegment := 1 } }

/-- C4 counterexample: in a buffered run where the only segment always
fails, at least one in-range segment ends with status `error`, yet
`downloadM3U8Video` does not return with a failure-count message — it
throws the no-successful-segments error (`'没有成功下载的片段'`) and no
emitted progress message carries a failure count.  The claim as stated
(return without finalizing plus a failure-count message whenever some
in-range segment failed) is therefore false when no payload was ever
stored. -/
theorem buffered_failure_cex :
    (downloadM3U8Video allFailEnv oneSegTask).2 = some .noSegments ∧
    ((downloadM3U8Video allFailEnv oneSegTask).1.finishList.getD 0 default).status =
      .error ∧
    (∀ p ∈ (downloadM3U8Video allFailEnv oneSegTask).1.progressLog,
      ∀ n, p.message ≠ some (.failedSegsAwaitRetry n)) := by
  have hA := downloadSegment_allfail_aux allFailEnv oneSegTask
    (totalSegmentsOf oneSegTask) 0 (fun _ => rfl) (fun _ _ => rfl) rfl
    2 0 (initState oneSegTask) rfl (by decide)
  obtain ⟨a1, a2, a3, a4, a5, a6, a7, a8⟩ := hA
  have hq : processQueue allFailEnv oneSegTask (totalSegmentsOf oneSegTask)
      (initState oneSegTask) [0] =
      ((downloadSegment allFailEnv oneSegTask (totalSegmentsOf oneSegTask)
        (initState oneSegTask) 0 0).1, none) := by
    rcases hd : downloadSegment allFailEnv oneSegTask (totalSegmentsOf oneSegTask)
      (initState oneSegTask) 0 0 with ⟨st', r⟩
    rw [hd] at a1
    simp only at a1
    subst a1
    have habF : allFailEnv.aborted = false := rfl
    simp [processQueue, hd, habF]
  have hqof : queueOf oneSegTask = [0] := rfl
  have hrun : downloadM3U8Video allFailEnv oneSegTask =
      ((downloadSegment allFailEnv oneSegTask (totalSegmentsOf oneSegTask)
        (initState oneSegTask) 0 0).1, some .noSegments) := by
    unfold downloadM3U8Video workerPhase
    rw [hqof, hq]
    have hhwF : allFailEnv.hasWriter = false := rfl
    simp only [hhwF, Bool.false_eq_true, if_false]
    rw [a7]
    simp [initState, oneSegTask, sampleTask]
  rw [hrun]
  refine ⟨rfl, a4, ?_⟩
  intro p hp n
  rcases a8 p hp with h | h
  · simp [initState] at h
  · exact h n

/-- C4 (amended): a buffered-mode run whose workers all returned, where
at least one in-range segment ended with status `error` and at least one
payload is in the task's map, stops without finalizing: it returns
normally having emitted exactly one extra progress event whose message
carries the in-range failure count (status `downloading`, never `done`),
delivers no artifact, and leaves the payload map of the worker phase
untouched, awaiting per-segment retry. -/
theorem buffered_failures_block_finalize (env : RunEnv) (task : M3U8Task)
    (hhw : env.hasWriter = false) (hab : env.aborted = false)
    (herr : (inRangeFinish task (workerPhase env task).1.finishList).any
      (fun en => en.status == .error) = true)
    (hne : (workerPhase env task).1.downloadedSegments.isEmpty = false) :
    downloadM3U8Video env task =
      (emit (workerPhase env task).1
        { current := (workerPhase env task).1.completedCount,
          total := totalSegmentsOf task,
          percentage := jsRoundPct (workerPhase env task).1.completedCount
            (totalSegmentsOf task),
          status := .downloading,
          message := some (.failedSegsAwaitRetry
            ((inRangeFinish task (workerPhase env task).1.finishList).filter
              (fun en => en.status == .error)).length) }, none) ∧
    (downloadM3U8Video env task).1.artifact = none ∧
    (downloadM3U8Video env task).1.downloadedSegments =
      (workerPhase env task).1.downloadedSegments ∧
    (∀ p ∈ (downloadM3U8Video env task).1.progressLog, p.status ≠ .done) := by
  have hpq := processQueue_buffered env task (totalSegmentsOf task) hab hhw
    (queueOf task) (initState task)
  have hwp2 : (workerPhase env task).2 = none := hpq.1
  have hart : (workerPhase env task).1.artifact = none := hpq.2.1
  have hprog : ∀ p ∈ (workerPhase env task).1.progressLog,
      p ∈ (initState task).progressLog ∨ p.status = .downloading := hpq.2.2
  have hrun : downloadM3U8Video env task =
      (emit (workerPhase env task).1
        { current := (workerPhase env task).1.completedCount,
          total := totalSegmentsOf task,
          percentage := jsRoundPct (workerPhase env task).1.completedCount
            (totalSegmentsOf task),
          status := .downloading,
          message := some (.failedSegsAwaitRetry
            ((inRangeFinish task (workerPhase env task).1.finishList).filter
              (fun en => en.status == .error)).length) }, none) := by
    unfold downloadM3U8Video
    rcases hwp : workerPhase env task with ⟨st, r⟩
    rw [hwp] at hwp2
    simp only at hwp2
    subst hwp2
    rw [hwp] at hne herr
    simp only [hhw, Bool.false_eq_true, if_false, hne, herr, if_true]
  refine ⟨hrun, ?_, ?_, ?_⟩
  · rw [hrun]
    simpa [emit] using hart
  · rw [hrun]
    simp [emit]
  · rw [hrun]
    intro p hp
    simp only [emit, List.append_eq, List.mem_append, List.mem_singleton] at hp
    rcases hp with hp | rfl
    · rcases hprog p hp with h | h
      · simp [initState] at h
      · simp [h]
    · simp

/-- A buffered environment (no retries) in which only segment 0's fetch
succeeds. -/
def mixedEnv : RunEnv :=
  { fetchResult := fun i _ => if i = 0 then .ok [7] else .error (),
    cryptoAES := fun w _ _ => w, writeOk := fun _ _ => true, maxRetries := 0,
    concurrency := 6, hasWriter := false, aborted := false }

/-- A two-segment variant of the sample task. -/
def twoSegTask : M3U8Task :=
  { sampleTask with
    tsUrlList := ["http://e.com/s0.ts", "http://e.com/s1.ts"],
    finishList := [default, default],
    segmentDurations := [2, 2],
    rangeDownload := { startSegment := 1, endSegment := 2, targetSegment := 2 } }

/-- C4 witness: segment 0 succeeds, segment 1 fails — the run returns
normally with no artifact and a progress event reporting one failed
segment. -/
theorem buffered_failures_block_finalize_witness :
    (downloadM3U8Video mixedEnv twoSegTask).2 = none ∧
    (downloadM3U8Video mixedEnv twoSegTask).1.artifact = none ∧
    ∃ p ∈ (downloadM3U8Video mixedEnv twoSegTask).1.progressLog,
      p.message = some (.failedSegsAwaitRetry 1) ∧ p.status ≠ .done := by
  have hwp : workerPhase mixedEnv twoSegTask =
      ({ finishList := [{ title := "", status := .success, retryCount := some 0 },
                        { title := "", status := .error, retryCount := some 0 }],
         finishNum := 1, errorNum := 1, downloadedSegments := [(0, [7])],
         pendingWrites := [], nextWriteIndex := 0, completedCount := 1, sink := [],
         fetchLog := [(0, 0), (1, 0)], delays := [],
         progressLog := [{ current := 1, total := 2, percentage := 50,
                           status := .downloading,
                           message := some (.downloadingSegs 1 2 6 false) },
                         { current := 1, total := 2, percentage := 50,
                           status := .downloading,
                           message := some (.segFailedAwaitRetry 2 1 2) }],
         writerClosed := false, writerAborted := false, artifact := none },
        none) := by
    simp [workerPhase, queueOf, totalSegmentsOf, initState, processQueue,
      downloadSegment, tryDownloadBody, successTail, segmentFailureTail,
      flushPendingWritesM, emit, updateFinish, mapSet, mapDelete, mapGet,
      jsFloorPct, mixedEnv, twoSegTask, sampleTask,
      show (default : FinishEntry) = ⟨"", .blank, none⟩ from rfl]
  have herr : (inRangeFinish twoSegTask
      (workerPhase mixedEnv twoSegTask).1.finishList).any
      (fun en => en.status == .error) = true := by
    rw [hwp]
    decide
  have hne : (workerPhase mixedEnv twoSegTask).1.downloadedSegments.isEmpty =
      false := by
    rw [hwp]
    decide
  have h := buffered_failures_block_finalize mixedEnv twoSegTask rfl rfl herr hne
  refine ⟨by rw [h.1], h.2.1, ?_⟩
  rw [h.1, hwp]
  decide

/-! ### Resolver claims -/

theorem sortByBandwidthDesc_head_max :
    ∀ l : List StreamVariant, l ≠ [] →
      ∃ p t, sortByBandwidthDesc l = p :: t ∧ p ∈ l ∧ ∀ q ∈ l, bwD q ≤ bwD p := by
  intro l
  induction l with
  | nil => intro h; exact absurd rfl h
  | cons x xs ih =>
    intro _
    by_cases hxs : xs = []
    · subst hxs
      exact ⟨x, [], rfl, by simp, by simp⟩
    · obtain ⟨p, t, hsort, hmem, hmax⟩ := ih hxs
      show ∃ p2 t2, insertByBandwidth x (sortByBandwidthDesc xs) = p2 :: t2 ∧ _
      rw [hsort]
      unfold insertByBandwidth
      by_cases hle : bwD p ≤ bwD x
      · simp only [hle, if_true]
        refine ⟨x, p :: t, rfl, by simp, ?_⟩
        intro q hq
        rcases List.mem_cons.1 hq with rfl | hq
        · exact le_refl _
        · exact le_trans (hmax q hq) hle
      · simp only [hle, if_false]
        refine ⟨p, insertByBandwidth x t, rfl, by simp [hmem], ?_⟩
        intro q hq
        rcases List.mem_cons.1 hq with rfl | hq
        · omega
        · exact hmax q hq

/-- C6: the master-manifest resolver picks the highest declared
bandwidth: whenever the variant collection succeeds, an empty candidate
list yields `null` (and `parseM3U8` then fails with the no-variant
error), and otherwise `extractSubPlaylistUrl` returns the resolved URL of
a candidate whose `BANDWIDTH` rank (`bandwidth || 0`) is maximal, on
which `parseM3U8` recurses at `depth + 1`. -/
theorem extractSubPlaylistUrl_max_bandwidth :
    (∀ (content baseUrl : String) (cands : List StreamVariant),
      collectVariants baseUrl (strSplitOn content "\n") = .ok cands →
      (cands = [] → extractSubPlaylistUrl content baseUrl = .ok none) ∧
      (cands ≠ [] → ∃ p ∈ cands, extractSubPlaylistUrl content baseUrl =
        .ok (some p.url) ∧ ∀ q ∈ cands, bwD q ≤ bwD p)) ∧
    (∀ (env : NetEnv) (url : String) (depth : Nat), depth ≤ 5 →
      strToUpper (strTake (env.fetchText url) 7) = "#EXTM3U" →
      isMasterPlaylist (env.fetchText url) = true →
      (extractSubPlaylistUrl (env.fetchText url) url = .ok none →
        parseM3U8 env url depth = .error .noVariant) ∧
      (∀ u, extractSubPlaylistUrl (env.fetchText url) url = .ok (some u) →
        parseM3U8 env url depth = parseM3U8 env u (depth + 1)) ∧
      (∀ e, extractSubPlaylistUrl (env.fetchText url) url = .error e →
        parseM3U8 env url depth = .error e)) := by
  constructor
  · intro content baseUrl cands hc
    constructor
    · intro hnil
      subst hnil
      unfold extractSubPlaylistUrl
      rw [hc]
      rfl
    · intro hne
      obtain ⟨p, t, hsort, hmem, hmax⟩ := sortByBandwidthDesc_head_max cands hne
      refine ⟨p, hmem, ?_, hmax⟩
      unfold extractSubPlaylistUrl
      rw [hc]
      simp only [Except.map]
      rw [hsort]
  · intro env url depth hdep hhead hmaster
    have hdep2 : ¬depth > 5 := by omega
    refine ⟨?_, ?_, ?_⟩
    · intro hnone
      unfold parseM3U8
      simp [hdep2, hhead, hmaster, hnone]
    · intro u hsome
      conv_lhs => unfold parseM3U8
      simp [hdep2, hhead, hmaster, hsome]
    · intro e herr2
      unfold parseM3U8
      simp [hdep2, hhead, hmaster, herr2]

/-- C5: `parseM3U8` terminates on every input — it is a total function,
defined by recursion on the depth budget `6 - depth` — and: a call at a
depth past the guard throws the recursion-depth error; a fetched text
whose first 7 characters do not uppercase to `#EXTM3U` throws the
invalid-playlist error; every successful resolution returns a task whose
URL carries a valid-header, non-master (media) manifest.  Together with
the master step of the resolver (claim C6's theorem), the resolution of a
master manifest either reaches such a media task or fails with the
no-variant, recursion-depth, or another resolver error — it never
loops. -/
theorem parseM3U8_terminates :
    (∀ (env : NetEnv) (url : String) (depth : Nat), depth > 5 →
      parseM3U8 env url depth = .error .recursionDepth) ∧
    (∀ (env : NetEnv) (url : String) (depth : Nat), depth ≤ 5 →
      strToUpper (strTake (env.fetchText url) 7) ≠ "#EXTM3U" →
      parseM3U8 env url depth = .error .invalidPlaylist) ∧
    (∀ (env : NetEnv) (url : String) (depth : Nat) (t : M3U8Task),
      parseM3U8 env url depth = .ok t →
      strToUpper (strTake (env.fetchText t.url) 7) = "#EXTM3U" ∧
      isMasterPlaylist (env.fetchText t.url) = false) := by
  refine ⟨?_, ?_, ?_⟩
  · intro env url depth hdep
    unfold parseM3U8
    simp [hdep]
  · intro env url depth hdep hbad
    have hdep2 : ¬depth > 5 := by omega
    unfold parseM3U8
    simp [hdep2, hbad]
  · intro env url depth
    induction url, depth using parseM3U8.induct env with
    | case1 url depth hdep =>
      intro t ht
      unfold parseM3U8 at ht
      simp [hdep] at ht
    | case2 url depth hdep _m hbad =>
      intro t ht
      unfold parseM3U8 at ht
      simp [hdep, hbad] at ht
    | case3 url depth hdep _m hok hmaster e hex =>
      intro t ht
      unfold parseM3U8 at ht
      simp [hdep, hok, hmaster, hex] at ht
    | case4 url depth hdep _m hok hmaster hex =>
      intro t ht
      unfold parseM3U8 at ht
      simp [hdep, hok, hmaster, hex] at ht
    | case5 url depth hdep _m hok hmaster u hex ih =>
      intro t ht
      unfold parseM3U8 at ht
      simp only [hdep, hok, hmaster, hex] at ht
      exact ih t (by simpa using ht)
    | case6 url depth hdep _m hok hmaster e hwalk =>
      intro t ht
      unfold parseM3U8 at ht
      simp [hdep, hok, hmaster, hwalk] at ht
    | case7 url depth hdep _m hok hmaster scan hwalk e haes =>
      intro t ht
      unfold parseM3U8 at ht
      simp [hdep, hok, hmaster, hwalk, haes] at ht
    | case8 url depth hdep _m hok hmaster scan hwalk conf haes =>
      intro t ht
      unfold parseM3U8 at ht
      simp [hdep, hok, hmaster, hwalk, haes] at ht
      subst ht
      refine ⟨by simpa using hok, by simpa using hmaster⟩

/-- A network oracle serving a two-variant master manifest and a tiny
media manifest. -/
def masterEnv : NetEnv :=
  { fetchText := fun u =>
      if u = "http://h/ma.m3u8" then
        "#EXTM3U\n#EXT-X-STREAM-INF:BANDWIDTH=100\nlow.m3u8\n#EXT-X-STREAM-INF:BANDWIDTH=900\nhigh.m3u8\n"
      else "#EXTM3U\n#EXTINF:2,\nseg.ts",
    fetchKey := fun _ => [], parseFloat := fun _ => 2,
    extractTitle := fun _ => "t" }

/-- C6 witness: of the 100 / 900 variants the resolver picks the 900 one
and recurses on its resolved URL. -/
theorem extractSubPlaylistUrl_max_bandwidth_witness :
    (∃ p ∈ [({ url := "http://h/low.m3u8", bandwidth := some 100 } : StreamVariant),
            { url := "http://h/high.m3u8", bandwidth := some 900 }],
      extractSubPlaylistUrl (masterEnv.fetchText "http://h/ma.m3u8")
          "http://h/ma.m3u8" = .ok (some p.url) ∧
        ∀ q ∈ [({ url := "http://h/low.m3u8", bandwidth := some 100 } : StreamVariant),
               { url := "http://h/high.m3u8", bandwidth := some 900 }],
          bwD q ≤ bwD p) ∧
    parseM3U8 masterEnv "http://h/ma.m3u8" 0 =
      parseM3U8 masterEnv "http://h/high.m3u8" 1 := by
  have hc : collectVariants "http://h/ma.m3u8"
      (strSplitOn (masterEnv.fetchText "http://h/ma.m3u8") "\n") =
      .ok [{ url := "http://h/low.m3u8", bandwidth := some 100 },
           { url := "http://h/high.m3u8", bandwidth := some 900 }] := by rfl
  have h1 := (extractSubPlaylistUrl_max_bandwidth.1
    (masterEnv.fetchText "http://h/ma.m3u8") "http://h/ma.m3u8" _ hc).2 (by simp)
  have h2 := (extractSubPlaylistUrl_max_bandwidth.2 masterEnv "http://h/ma.m3u8" 0
    (by omega) (by decide) (by decide)).2.1 "http://h/high.m3u8" (by rfl)
  exact ⟨h1, h2⟩

/-- A network oracle serving one valid media manifest at one URL and
junk elsewhere. -/
def mediaEnv : NetEnv :=
  { fetchText := fun u =>
      if u = "http://h/m.m3u8" then "#EXTM3U\n#EXTINF:2,\nseg.ts" else "nope",
    fetchKey := fun _ => [], parseFloat := fun _ => 2,
    extractTitle := fun _ => "t" }

/-- C5 witness: past the depth guard the recursion-depth error is
thrown; a junk body throws the invalid-playlist error; and the one valid
URL resolves to a media (non-master) manifest task. -/
theorem parseM3U8_terminates_witness :
    parseM3U8 mediaEnv "http://h/x.m3u8" 6 = .error .recursionDepth ∧
    parseM3U8 mediaEnv "http://h/bad.m3u8" 0 = .error .invalidPlaylist ∧
    isMasterPlaylist (mediaEnv.fetchText "http://h/m.m3u8") = false ∧
    strToUpper (strTake (mediaEnv.fetchText "http://h/m.m3u8") 7) = "#EXTM3U" := by
  have hres : parseM3U8 mediaEnv "http://h/m.m3u8" 0 =
      .ok { url := "http://h/m.m3u8", title := "t", type := .ts,
            tsUrlList := ["http://h/seg.ts"],
            finishList := [{ title := "seg.ts", status := .blank, retryCount := none }],
            downloadIndex := 0, finishNum := 0, errorNum := 0,
            aesConf := { method := "", uri := "", iv := "", key := none },
            durationSecond := 2, segmentDurations := [2],
            rangeDownload := { startSegment := 1, endSegment := 1, targetSegment := 1 },
            totalSize := 524288, downloadedSegments := [] } := by
    conv_lhs => unfold parseM3U8
    decide
  have hc := parseM3U8_terminates.2.2 mediaEnv "http://h/m.m3u8" 0 _ hres
  refine ⟨parseM3U8_terminates.1 mediaEnv "http://h/x.m3u8" 6 (by omega),
    parseM3U8_terminates.2.1 mediaEnv "http://h/bad.m3u8" 0 (by omega) (by decide),
    by simpa using hc.2, by simpa using hc.1⟩

end MoonTV
